import Mathlib

/-! # partials-loader: a shallow embedding of `lib/partials-loader.js`

The module walks directory trees and registers template files with a template
engine.  The embedding keeps the JavaScript control flow: the implicit globals
`files` and `stat` of `loadPartials` are fields of the machine state, the
function-scoped counter `i` of `exports.handlebars` is threaded through both of
its loops, and the error objects that `validateInput` builds with `new Error`
are built and dropped.  The collaborators that are not part of the module
(`fs`, `path`, `fs-helper`) are the fields of `Env`.  Loops and calls consume
fuel; `Res.outOfFuel` is the only outcome that is not an outcome of the program.
-/

namespace PartialsLoader

/-! ## JavaScript values -/

/-- A JavaScript value that is not an array.  `num n` is an integer-valued Number
(of magnitude below 2^53); `obj id` is a plain object, identified by `id`, whose
only method is `registerPartial` (a template engine). -/
inductive Prim
  | undefined
  | null
  | bool (b : Bool)
  | num (n : Int)
  | str (s : String)
  | obj (id : Nat)
  deriving DecidableEq, Repr

/-- A JavaScript value: a non-array value or an array of non-array values. -/
inductive JsVal
  | prim (p : Prim)
  | arr (xs : List Prim)
  deriving DecidableEq, Repr

/-- What a JavaScript call can throw. -/
inductive JsError
  | typeError (msg : String)
  | error (msg : String)
  | ioError (msg : String)
  deriving DecidableEq, Repr

/-- JavaScript truthiness of a non-array value (`if (v)`). -/
def Prim.truthy : Prim → Bool
  | .undefined => false
  | .null => false
  | .bool b => b
  | .num n => n != 0
  | .str s => s != ""
  | .obj _ => true

/-- JavaScript truthiness: every array is truthy. -/
def JsVal.truthy : JsVal → Bool
  | .prim p => p.truthy
  | .arr _ => true

/-- The lodash test `_.isString` on a non-array value. -/
def Prim.isString : Prim → Bool
  | .str _ => true
  | _ => false

/-- The lodash test `_.isObject`: objects and arrays. -/
def JsVal.isObject : JsVal → Bool
  | .prim (.obj _) => true
  | .arr _ => true
  | .prim _ => false

/-- The indexed elements `v[0], ..., v[v.length - 1]` of an array-like value; a
value without a numeric `length` has none.  A string is indexed by character
(UTF-16 code unit in JavaScript; the two agree on the Basic Multilingual Plane). -/
def JsVal.elements : JsVal → List Prim
  | .arr xs => xs
  | .prim (.str s) => s.data.map (fun c => Prim.str (String.singleton c))
  | .prim _ => []

/-- The scan of lodash `_.indexOf`: first position, counted from `k`, holding a
value strictly equal (`===`) to `v`, or `-1`. -/
def indexOfFrom (v : Prim) : List Prim → Nat → Int
  | [], _ => -1
  | x :: xs, k => if x = v then (k : Int) else indexOfFrom v xs (k + 1)

/-- The lodash call `_.indexOf(array, value)`; `null`, `undefined` and values
without a `length` give `-1`. -/
def indexOf (array : JsVal) (value : Prim) : Int :=
  indexOfFrom value array.elements 0

/-- The property read `v.length` as used in a loop condition: reading it from
`undefined` or `null` throws, a value without the property gives `undefined`
(here `none`). -/
def JsVal.length : JsVal → Except JsError (Option Nat)
  | .prim .undefined => .error (.typeError "Cannot read property 'length' of undefined")
  | .prim .null => .error (.typeError "Cannot read property 'length' of null")
  | .arr xs => .ok (some xs.length)
  | .prim (.str s) => .ok (some s.length)
  | .prim _ => .ok none

/-- The comparison `i < v.length`: false when the length is `undefined`. -/
def ltLength (i : Nat) : Option Nat → Bool
  | some n => decide (i < n)
  | none => false

/-- The element read `v[i]`; `undefined` outside the indexed elements. -/
def JsVal.index (v : JsVal) (i : Nat) : Prim :=
  v.elements.getD i .undefined

/-- JavaScript `ToString` of a non-array value. -/
def Prim.toJsString : Prim → String
  | .undefined => "undefined"
  | .null => "null"
  | .bool b => if b then "true" else "false"
  | .num n => toString n
  | .str s => s
  | .obj _ => "[object Object]"

/-- The text an array element contributes to `Array.prototype.join`. -/
def Prim.joinText : Prim → String
  | .undefined => ""
  | .null => ""
  | p => p.toJsString

/-- JavaScript `ToString`; an array is joined with commas. -/
def JsVal.toJsString : JsVal → String
  | .prim p => p.toJsString
  | .arr xs => String.intercalate "," (xs.map Prim.joinText)

/-- The backtick character. -/
def backtick : Char := Char.ofNat 96

/-- The apostrophe character. -/
def apostrophe : Char := Char.ofNat 39

/-- Expansion of a replacement template of `String.prototype.replace` for a
pattern without capture groups: `$$` is a dollar sign, `$&` the matched text,
`$` followed by a backtick the text before the match, `$` followed by an
apostrophe the text after it; everything else is literal. -/
def expandReplacement (matched before after : List Char) : List Char → List Char
  | [] => []
  | [c] => [c]
  | c :: d :: rest =>
    if c = '$' then
      if d = '$' then '$' :: expandReplacement matched before after rest
      else if d = '&' then matched ++ expandReplacement matched before after rest
      else if d = backtick then before ++ expandReplacement matched before after rest
      else if d = apostrophe then after ++ expandReplacement matched before after rest
      else c :: expandReplacement matched before after (d :: rest)
    else c :: expandReplacement matched before after (d :: rest)

/-- The scan of `s.replace(/\\/g, replacement)`: every backslash of the subject is
replaced by the expanded template; `before` is the part of the subject already
passed. -/
def replaceBackslashGo (replacement : List Char) : List Char → List Char → List Char
  | _, [] => []
  | before, c :: rest =>
    if c = '\\' then
      expandReplacement [c] before rest replacement
        ++ replaceBackslashGo replacement (before ++ [c]) rest
    else c :: replaceBackslashGo replacement (before ++ [c]) rest

/-- The call `s.replace(/\\/g, replacement)` of line 76: the pattern matches the
backslash character and nothing else. -/
def replaceBackslashes (s : String) (replacement : String) : String :=
  ⟨replaceBackslashGo replacement.data [] s.data⟩

/-- The call `s.slice(1)`: the string without its first character. -/
def slice1 (s : String) : String :=
  ⟨s.data.drop 1⟩

/-! ## Options and validation -/

/-- The options object passed to `exports.handlebars`; a missing property is
`undefined`. -/
structure Options where
  engine_reference : JsVal
  template_engine_reference : JsVal
  template_root_directories : JsVal
  partials_directory_names : JsVal
  template_extensions : JsVal
  delimiter_symbol : JsVal
  deriving DecidableEq, Repr

/-- An expression statement `new Error(msg)`: the error object is built and
dropped; nothing is thrown. -/
def newErrorDropped (msg : String) : Except JsError Unit :=
  let _unthrown := JsError.error msg
  .ok ()

/-- The loop of the `validate*` functions over the elements of an array: for an
element that is not a string an error object is built and dropped. -/
def checkElements (msg : String) : List Prim → Except JsError Unit
  | [] => .ok ()
  | x :: xs =>
    if !x.isString then do
      newErrorDropped msg
      checkElements msg xs
    else checkElements msg xs

/-- Source function `validateEngineReference` (lines 135-139). -/
def validateEngineReference (engine_reference : JsVal) : Except JsError Unit :=
  if !engine_reference.isObject then
    newErrorDropped "The template engine passed into the partial-loader function is not an OBJECT type. Please fix this."
  else .ok ()

/-- Source function `validateTemplateRootDirectories` (lines 141-156).  The three
cases are `_.isString`, `_.isArray` and neither. -/
def validateTemplateRootDirectories (template_root_directories : JsVal) :
    Except JsError JsVal :=
  match template_root_directories with
  | .prim (.str s) => .ok (.arr [.str s])
  | .arr xs => do
    checkElements "The values for the template root directory must all be strings, please validate that this option parameter is correct." xs
    .ok (.arr xs)
  | other => do
    newErrorDropped "The template extensions passed into the partial-loader function are not an ARRAY or STRING type. Please fix this."
    .ok other

/-- Source function `validatePartialDirectoryNames` (lines 158-173). -/
def validatePartialDirectoryNames (partials_directory_names : JsVal) :
    Except JsError JsVal :=
  match partials_directory_names with
  | .prim (.str s) => .ok (.arr [.str s])
  | .arr xs => do
    checkElements "The values for the partials directory names must all be strings, please validate that this option parameter is correct." xs
    .ok (.arr xs)
  | other => do
    newErrorDropped "The template extensions passed into the partial-loader function are not an ARRAY or STRING type. Please fix this."
    .ok other

/-- Source function `validateTemplateExtensions` (lines 175-190). -/
def validateTemplateExtensions (template_extensions : JsVal) : Except JsError JsVal :=
  match template_extensions with
  | .prim (.str s) => .ok (.arr [.str s])
  | .arr xs => do
    checkElements "The values for the template extensions must all be strings, please validate that this option parameter is correct." xs
    .ok (.arr xs)
  | other => do
    newErrorDropped "The template extensions passed into the partial-loader function are not an ARRAY or STRING type. Please fix this."
    .ok other

/-- Source function `validateInput` (lines 104-133); the options object is
mutated in place, here returned. -/
def validateInput (options : Options) : Except JsError Options := do
  if options.engine_reference.truthy then
    validateEngineReference options.engine_reference
  else
    newErrorDropped "An engine reference is a required property in order to use partial-loader. Please provide this in the functional that calls this."
  let options ←
    if options.template_root_directories.truthy then do
      let v ← validateTemplateRootDirectories options.template_root_directories
      pure { options with template_root_directories := v }
    else do
      newErrorDropped "The \"template_root_directories\" is a required property in order to use partial-loader. Please provide this in the function that calls this."
      pure options
  let options ←
    if options.partials_directory_names.truthy then do
      let v ← validatePartialDirectoryNames options.partials_directory_names
      pure { options with partials_directory_names := v }
    else do
      newErrorDropped "The \"template_partials_directory(s)\" is a required property in order to use partial-loader. Please provide this in the functional that calls this."
      pure options
  if options.template_extensions.truthy then do
    let v ← validateTemplateExtensions options.template_extensions
    pure { options with template_extensions := v }
  else do
    newErrorDropped "The \"template_extensions\" is a required property in order to use partial-loader. Please provide this in the functional that calls this."
    pure options

/-- What each of the three `validate*` functions returns: a string wrapped in a
one-element array, anything else as it is. -/
def wrapString : JsVal → JsVal
  | .prim (.str s) => .arr [.str s]
  | v => v

/-- What `validateInput` leaves in a field it validates: the field goes through its
`validate*` function only when it is truthy. -/
def normalizeField (v : JsVal) : JsVal :=
  if v.truthy then wrapString v else v

/-- The options object as `validateInput` leaves it. -/
def normalizeOptions (options : Options) : Options :=
  { options with
    template_root_directories := normalizeField options.template_root_directories
    partials_directory_names := normalizeField options.partials_directory_names
    template_extensions := normalizeField options.template_extensions }

/-! ## Collaborators, effects and machine state -/

/-- The result of `fs.statSync`, of which the walker uses `isFile()`. -/
structure Stats where
  isFile : Bool
  deriving DecidableEq, Repr

/-- The collaborators of the module: `fs` (`readdirSync`, `statSync`,
`readFileSync`), `path` (`join`, `extname`) and `fs-helper` (`getDirPathsSync`,
`getDirDifference`, `getDirPathsRecursivelyByNameSync`).  None of them is part of
the module; each is a parameter, and each may throw except the two the module
uses as pure string functions. -/
structure Env where
  readdirSync : Prim → Except JsError (List String)
  statSync : String → Except JsError Stats
  readFileSync : String → Except JsError String
  join : Prim → String → Except JsError String
  extname : String → String
  getDirPathsSync : Prim → Except JsError (List String)
  getDirDifference : Prim → String → String
  getDirPathsRecursivelyByNameSync : Prim → JsVal → Except JsError (List String)

/-- An observable effect of a run, in program order.  A call that throws is
recorded before it throws. -/
inductive Event
  | readdirSync (path : Prim)
  | statSync (path : String)
  | readFileSync (path : String)
  | getDirPathsSync (path : Prim)
  | getDirPathsRecursivelyByNameSync (root : Prim) (names : JsVal)
  | log (line : String)
  | registerPartial (engine : Nat) (name : String) (template : String)
  deriving DecidableEq, Repr

/-- The machine state: the implicit globals `files` and `stat` that
`loadPartials` assigns without declaring, and the effects so far. -/
structure St where
  files : List String
  stat : Option Stats
  trace : List Event
  deriving DecidableEq, Repr

/-- The state before a call: globals unassigned, nothing observed. -/
def St.init : St := { files := [], stat := none, trace := [] }

/-- Appends an effect to the trace. -/
def St.emit (st : St) (e : Event) : St := { st with trace := st.trace ++ [e] }

/-- The outcome of running a piece of the program. -/
inductive Res
  | outOfFuel
  | threw (e : JsError) (st : St)
  | done (st : St)
  deriving DecidableEq, Repr

/-- Runs `f` on the elements of a list in order, stopping at the first outcome that
is not a normal completion: a `for` loop over a local array that the body does
not change. -/
def forEachDone {α : Type} (f : α → St → Res) : List α → St → Res
  | [], st => .done st
  | x :: xs, st =>
    match f x st with
    | .done st1 => forEachDone f xs st1
    | r => r

/-- The call `template_engine_reference.registerPartial(name, template)` of line 83:
on anything but an engine object the method lookup or the call throws a
`TypeError`. -/
def callRegisterPartial (engine : JsVal) (name template : String) (st : St) : Res :=
  match engine with
  | .prim (.obj id) => .done (st.emit (.registerPartial id name template))
  | _ => .threw (.typeError "Cannot call method 'registerPartial'") st

/-! ## The walker -/

/-- The extension the walker computes for a full path (line 72). -/
def walkerExtension (env : Env) (fullPath : String) : String :=
  slice1 (env.extname fullPath)

/-- The test of line 73: the extension of the path is in the allow-list. -/
def extensionAllowed (env : Env) (template_extensions : JsVal) (fullPath : String) : Bool :=
  indexOf template_extensions (.str (walkerExtension env fullPath)) != -1

/-- The namespace key the walker computes for a full path (lines 75-76). -/
def namespaceKey (env : Env) (root_directory : Prim) (delimiter_symbol : JsVal)
    (fullPath : String) : String :=
  replaceBackslashes (env.getDirDifference root_directory fullPath)
    delimiter_symbol.toJsString

/-- The body of the `for` loop over `files` in `loadPartials` (lines 68-85), at
index `i`.  `files[i]` is read from the global. -/
def fileBody (env : Env) (template_engine_reference : JsVal) (root_directory : Prim)
    (current_directory : Prim) (template_extensions : JsVal) (delimiter_symbol : JsVal)
    (i : Nat) (st : St) : Res :=
  match st.files[i]? with
  | none => .threw (.typeError "Arguments to path.join must be strings") st
  | some name =>
    match env.join current_directory name with
    | .error e => .threw e st
    | .ok fullPath =>
      let st := st.emit (.statSync fullPath)
      match env.statSync fullPath with
      | .error e => .threw e st
      | .ok s =>
        let st := { st with stat := some s }
        match st.stat with
        | none => .threw (.typeError "Cannot call method 'isFile' of undefined") st
        | some stat =>
          if stat.isFile then
            let file_extension := walkerExtension env fullPath
            if indexOf template_extensions (.str file_extension) != -1 then
              let st := st.emit (.readFileSync fullPath)
              match env.readFileSync fullPath with
              | .error e => .threw e st
              | .ok template =>
                let partial_name_space :=
                  namespaceKey env root_directory delimiter_symbol fullPath
                let st := st.emit (.log "Loading Partial into Handlebars engine.")
                let st := st.emit (.log ("\tPartial Name Space: " ++ partial_name_space))
                let st := st.emit (.log ("\tFull Path to NameSpace: " ++ fullPath))
                let st := st.emit (.log "-----------------------------------------")
                callRegisterPartial template_engine_reference partial_name_space template st
            else .done st
          else .done st

/-- The `for` loop over `files` in `loadPartials` (line 67): the bound
`files.length` is read from the global at every iteration. -/
def fileLoop (env : Env) (template_engine_reference : JsVal) (root_directory : Prim)
    (current_directory : Prim) (template_extensions : JsVal) (delimiter_symbol : JsVal) :
    Nat → Nat → St → Res
  | 0, _, _ => .outOfFuel
  | fuel + 1, i, st =>
    if i < st.files.length then
      match fileBody env template_engine_reference root_directory current_directory
          template_extensions delimiter_symbol i st with
      | .done st1 =>
        fileLoop env template_engine_reference root_directory current_directory
          template_extensions delimiter_symbol fuel (i + 1) st1
      | r => r
    else .done st

/-- Source function `loadPartials` (lines 64-92). -/
def loadPartials (env : Env) : Nat → JsVal → Prim → Prim → JsVal → JsVal → St → Res
  | 0, _, _, _, _, _, _ => .outOfFuel
  | fuel + 1, template_engine_reference, root_directory, current_directory,
      template_extensions, delimiter_symbol, st =>
    let st := st.emit (.readdirSync current_directory)
    match env.readdirSync current_directory with
    | .error e => .threw e st
    | .ok listing =>
      let st := { st with files := listing }
      match fileLoop env template_engine_reference root_directory current_directory
          template_extensions delimiter_symbol fuel 0 st with
      | .done st =>
        let st := st.emit (.getDirPathsSync current_directory)
        match env.getDirPathsSync current_directory with
        | .error e => .threw e st
        | .ok subdirectories =>
          forEachDone
            (fun sub st1 =>
              loadPartials env fuel template_engine_reference root_directory (.str sub)
                template_extensions delimiter_symbol st1)
            subdirectories st
      | r => r

/-! ## The entry point -/

/-- The inner `for` loop of `exports.handlebars` (lines 48-50).  Its counter is the
function-scoped `i` of the outer loop, so the value the counter has when the loop
ends is part of the result. -/
def innerLoop (env : Env) (options : Options) (template_root_directory : Prim)
    (partial_subdirectories_found : List Prim) : Nat → Nat → St → Nat × Res
  | 0, i, _ => (i, .outOfFuel)
  | fuel + 1, i, st =>
    if i < partial_subdirectories_found.length then
      match loadPartials env fuel options.template_engine_reference template_root_directory
          (partial_subdirectories_found.getD i .undefined) options.template_extensions
          options.delimiter_symbol st with
      | .done st1 =>
        innerLoop env options template_root_directory partial_subdirectories_found fuel
          (i + 1) st1
      | r => (i, r)
    else (i, .done st)

/-- The resolution of the source directories of the root at index `i` (lines
37-46): the name search of `fs-helper` unless the names contain `'.'`, in which
case the list is the root alone and nothing is searched. -/
def resolveSources (env : Env) (options : Options) (i : Nat) (st : St) :
    St × Except JsError (List Prim) :=
  let template_root_directory := options.template_root_directories.index i
  if indexOf options.partials_directory_names (.str ".") == -1 then
    let st := st.emit (.getDirPathsRecursivelyByNameSync template_root_directory
      options.partials_directory_names)
    match env.getDirPathsRecursivelyByNameSync template_root_directory
        options.partials_directory_names with
    | .error e => (st, .error e)
    | .ok found => (st, .ok (found.map Prim.str))
  else (st, .ok [options.template_root_directories.index i])

/-- The outer `for` loop of `exports.handlebars` (lines 36-51), entered with the
counter at `i`.  After the body the counter is whatever the inner loop left, and
`i++` is applied to that. -/
def outerLoop (env : Env) (options : Options) : Nat → Nat → St → Res
  | 0, _, _ => .outOfFuel
  | fuel + 1, i, st =>
    match options.template_root_directories.length with
    | .error e => .threw e st
    | .ok len =>
      if ltLength i len then
        let template_root_directory := options.template_root_directories.index i
        match resolveSources env options i st with
        | (st, .error e) => .threw e st
        | (st, .ok partial_subdirectories_found) =>
          match innerLoop env options template_root_directory partial_subdirectories_found
              fuel 0 st with
          | (i1, .done st1) => outerLoop env options fuel (i1 + 1) st1
          | (_, r) => r
      else .done st

/-- The assignment of lines 32-34: a falsy `delimiter_symbol` becomes `'/'`. -/
def defaultDelimiter (options : Options) : Options :=
  if !options.delimiter_symbol.truthy then
    { options with delimiter_symbol := .prim (.str "/") }
  else options

/-- Source function `exports.handlebars` (lines 30-52): the options object as the
call leaves it, and the outcome. -/
def handlebars (env : Env) (fuel : Nat) (options : Options) (st : St) : Options × Res :=
  match validateInput options with
  | .error e => (options, .threw e st)
  | .ok options =>
    let options := defaultDelimiter options
    (options, outerLoop env options fuel 0 st)

/-! ## Finite directory trees -/

/-- A finite directory tree: a regular file with its content, or a directory with
its entries in listing order.  Every node carries its name and its full path. -/
inductive Node
  | file (name path content : String)
  | dir (name path : String) (children : List Node)
  deriving Repr

/-- The entry name of a node. -/
def Node.name : Node → String
  | .file name _ _ => name
  | .dir name _ _ => name

/-- The full path of a node that is a directory. -/
def Node.dirPath? : Node → Option String
  | .file _ _ _ => none
  | .dir _ path _ => some path

/-- The path and content of a node that is a regular file. -/
def Node.asFile? : Node → Option (String × String)
  | .file _ path content => some (path, content)
  | .dir _ _ _ => none

/-- The regular files directly inside a directory, in listing order. -/
def ownFiles (entries : List Node) : List (String × String) :=
  entries.filterMap Node.asFile?

mutual
/-- The regular files at or beneath a node, each once, in pre-order. -/
def Node.filesBeneath : Node → List (String × String)
  | .file _ path content => [(path, content)]
  | .dir _ _ children => filesBeneathList children
/-- The regular files beneath the entries of a directory, each once. -/
def filesBeneathList : List Node → List (String × String)
  | [] => []
  | c :: cs => c.filesBeneath ++ filesBeneathList cs
end

mutual
/-- The regular files strictly beneath a node in the order of the walker: for a
directory, its own files first, then its subdirectories in listing order. -/
def Node.walkBelow : Node → List (String × String)
  | .file _ _ _ => []
  | .dir _ _ children => ownFiles children ++ walkBelowList children
/-- The files the walker meets in the subdirectories of a directory. -/
def walkBelowList : List Node → List (String × String)
  | [] => []
  | c :: cs => c.walkBelow ++ walkBelowList cs
end

/-- The regular files beneath a directory with the given entries, in the order of
the walker. -/
def walkOrder (entries : List Node) : List (String × String) :=
  ownFiles entries ++ walkBelowList entries

mutual
/-- Fuel that suffices to walk a node. -/
def Node.fuel : Node → Nat
  | .file _ _ _ => 0
  | .dir _ _ children => fuelList children + 2
/-- Fuel that suffices for the entries of a directory. -/
def fuelList : List Node → Nat
  | [] => 0
  | c :: cs => c.fuel + 1 + fuelList cs
end

mutual
/-- The collaborators show this node inside the directory `parent`: `path.join`
gives its path, `statSync` its kind, a file can be read, and a directory lists its
entries, its subdirectory paths and, recursively, shows every entry. -/
def Node.ShownBy (env : Env) (parent : String) : Node → Prop
  | .file name path content =>
    env.join (.str parent) name = .ok path ∧ env.statSync path = .ok ⟨true⟩ ∧
      env.readFileSync path = .ok content
  | .dir name path children =>
    env.join (.str parent) name = .ok path ∧ env.statSync path = .ok ⟨false⟩ ∧
      env.readdirSync (.str path) = .ok (children.map Node.name) ∧
      env.getDirPathsSync (.str path) = .ok (children.filterMap Node.dirPath?) ∧
      AllShownBy env path children
/-- Every entry of a directory is shown by the collaborators. -/
def AllShownBy (env : Env) (parent : String) : List Node → Prop
  | [] => True
  | c :: cs => c.ShownBy env parent ∧ AllShownBy env parent cs
end

/-- The collaborators show, without any I/O error, the finite tree `entries` at
the directory `dir`: `readdirSync` lists the entry names, `getDirPathsSync` the
paths of the entries that are directories, and every entry is shown in turn. -/
def TreeAt (env : Env) (dir : String) (entries : List Node) : Prop :=
  env.readdirSync (.str dir) = .ok (entries.map Node.name) ∧
    env.getDirPathsSync (.str dir) = .ok (entries.filterMap Node.dirPath?) ∧
    AllShownBy env dir entries

/-! ## What an outcome contains -/

/-- The effects observed up to the end of a run (none when the fuel ran out). -/
def Res.trace : Res → List Event
  | .outOfFuel => []
  | .threw _ st => st.trace
  | .done st => st.trace

/-- Whether the run returned normally. -/
def Res.completed : Res → Bool
  | .done _ => true
  | _ => false

/-- The error the run threw, if it threw. -/
def Res.thrown? : Res → Option JsError
  | .threw e _ => some e
  | _ => none

/-- The outcome `r` of a run started in state `st` has added to the trace of `st`
only effects that satisfy `P`. -/
def Res.Extends (P : Event → Prop) (st : St) : Res → Prop
  | .outOfFuel => True
  | .threw _ st1 => ∃ t, st1.trace = st.trace ++ t ∧ ∀ e ∈ t, P e
  | .done st1 => ∃ t, st1.trace = st.trace ++ t ∧ ∀ e ∈ t, P e

/-- The effects `loadPartials` can have when called with the given engine and
allow-list: no name search, registrations on that engine only, and reads of files
whose extension is in the allow-list only. -/
def Event.FromWalker (env : Env) (engine exts : JsVal) : Event → Prop
  | .getDirPathsRecursivelyByNameSync _ _ => False
  | .registerPartial id _ _ => engine = .prim (.obj id)
  | .readFileSync path => extensionAllowed env exts path = true
  | _ => True

/-! ## What a trace contains -/

/-- The `registerPartial` calls of a trace, in order: engine, name, template. -/
def registrations : List Event → List (Nat × String × String)
  | [] => []
  | .registerPartial engine name template :: es => (engine, name, template) :: registrations es
  | _ :: es => registrations es

/-- Whether an effect is a filesystem operation: one of the three `fs` calls or
one of the two `fs-helper` directory searches. -/
def Event.isFsCall : Event → Bool
  | .readdirSync _ => true
  | .statSync _ => true
  | .readFileSync _ => true
  | .getDirPathsSync _ => true
  | .getDirPathsRecursivelyByNameSync _ _ => true
  | .log _ => false
  | .registerPartial _ _ _ => false

/-- The filesystem operations of a trace, in order. -/
def fsCalls (t : List Event) : List Event :=
  t.filter Event.isFsCall

/-- The name-based directory searches of a trace: the roots searched, in order. -/
def searches : List Event → List Prim
  | [] => []
  | .getDirPathsRecursivelyByNameSync root _ :: es => root :: searches es
  | _ :: es => searches es

/-- The directories listed with `readdirSync` in a trace, in order: the walker
lists every directory it visits. -/
def listings : List Event → List Prim
  | [] => []
  | .readdirSync path :: es => path :: listings es
  | _ :: es => listings es

/-! ## A filesystem given by a tree -/

/-- The last portion of a POSIX path: trailing slashes dropped, then everything
after the last remaining slash. -/
def basenameChars (cs : List Char) : List Char :=
  ((cs.reverse.dropWhile (fun c => c = '/')).takeWhile (fun c => c ≠ '/')).reverse

/-- The POSIX `path.extname` of Node.js: the text from the last `.` of the last
portion of the path to its end; empty when that portion has no `.`, when its only
`.` is its first character, or when the portion is `..`. -/
def posixExtname (path : String) : String :=
  let base := basenameChars path.data
  let afterDot := (base.reverse.takeWhile (fun c => c ≠ '.')).reverse
  if afterDot.length = base.length then ""
  else if afterDot.length + 1 = base.length then ""
  else if base = ['.', '.'] then ""
  else ⟨'.' :: afterDot⟩

/-- The POSIX `path.join` of Node.js on a normalised directory path and an entry
name: the two joined by a slash.  A directory that is not a string is a
`TypeError`. -/
def posixJoin : Prim → String → Except JsError String
  | .str dir, name => .ok (dir ++ "/" ++ name)
  | _, _ => .error (.typeError "Arguments to path.join must be strings")

mutual
/-- The node with the given full path, at or beneath a node. -/
def Node.find? : Node → String → Option Node
  | .file name path content, p => if path = p then some (.file name path content) else none
  | .dir name path children, p =>
    if path = p then some (.dir name path children) else findList? children p
/-- The node with the given full path, at or beneath one of the entries. -/
def findList? : List Node → String → Option Node
  | [], _ => none
  | c :: cs, p =>
    match c.find? p with
    | some n => some n
    | none => findList? cs p
end

mutual
/-- The paths of the directories at or beneath a node whose name is one of
`names`, in pre-order. -/
def Node.dirsNamed (names : JsVal) : Node → List String
  | .file _ _ _ => []
  | .dir name path children =>
    (if indexOf names (.str name) != -1 then [path] else []) ++ dirsNamedList names children
/-- The matching directories at or beneath the entries of a directory. -/
def dirsNamedList (names : JsVal) : List Node → List String
  | [] => []
  | c :: cs => c.dirsNamed names ++ dirsNamedList names cs
end

/-- The text of `fullPath` after the prefix `root` and the slash that follows it;
`fullPath` itself when it does not start so. -/
def stripRoot (root fullPath : String) : String :=
  let r := root.data ++ ['/']
  if r.isPrefixOf fullPath.data then ⟨fullPath.data.drop r.length⟩ else fullPath

/-- Modelled from the spec: the collaborators `fs`, `path` and `fs-helper` over a
filesystem that consists of the tree `top`.  The three `fs-helper` functions are
not part of the module; they are modelled as the specification describes them:
`getDirPathsSync` gives the paths of the immediate subdirectories,
`getDirDifference` the path of the file relative to the root, and
`getDirPathsRecursivelyByNameSync` every directory beneath the root whose name is
one of the given names (none when the root does not exist). -/
def treeEnv (top : Node) : Env where
  readdirSync
    | .str p =>
      match top.find? p with
      | some (.dir _ _ children) => .ok (children.map Node.name)
      | some (.file _ _ _) => .error (.ioError "ENOTDIR")
      | none => .error (.ioError "ENOENT")
    | _ => .error (.typeError "path must be a string")
  statSync p :=
    match top.find? p with
    | some (.dir _ _ _) => .ok ⟨false⟩
    | some (.file _ _ _) => .ok ⟨true⟩
    | none => .error (.ioError "ENOENT")
  readFileSync p :=
    match top.find? p with
    | some (.file _ _ content) => .ok content
    | some (.dir _ _ _) => .error (.ioError "EISDIR")
    | none => .error (.ioError "ENOENT")
  join := posixJoin
  extname := posixExtname
  getDirPathsSync
    | .str p =>
      match top.find? p with
      | some (.dir _ _ children) => .ok (children.filterMap Node.dirPath?)
      | some (.file _ _ _) => .error (.ioError "ENOTDIR")
      | none => .error (.ioError "ENOENT")
    | _ => .error (.typeError "path must be a string")
  getDirDifference
    | .str root, fullPath => stripRoot root fullPath
    | _, fullPath => fullPath
  getDirPathsRecursivelyByNameSync
    | .str root, names =>
      match top.find? root with
      | some (.dir _ _ children) => .ok (dirsNamedList names children)
      | _ => .ok []
    | _, _ => .error (.typeError "path must be a string")

/-- The tree of the scenario of the specification: `templates/` holding
`partials/header.hbs` and `skip.txt`. -/
def scenarioTree : Node :=
  .dir "templates" "templates"
    [ .dir "partials" "templates/partials"
        [ .file "header.hbs" "templates/partials/header.hbs" "<h1>Hi</h1>" ],
      .file "skip.txt" "templates/skip.txt" "skip" ]

/-- The entries of the directory `templates` of the scenario. -/
def scenarioEntries : List Node :=
  [ .dir "partials" "templates/partials"
      [ .file "header.hbs" "templates/partials/header.hbs" "<h1>Hi</h1>" ],
    .file "skip.txt" "templates/skip.txt" "skip" ]

/-- The options of the scenario, with the engine under both property names. -/
def scenarioOptions : Options :=
  { engine_reference := .prim (.obj 1)
    template_engine_reference := .prim (.obj 1)
    template_root_directories := .arr [.str "templates"]
    partials_directory_names := .arr [.str "partials"]
    template_extensions := .arr [.str "hbs"]
    delimiter_symbol := .prim (.str "/") }

/-! ## The effects a walk is expected to have -/

/-- The effects of one pass of the file loop over a regular file. -/
def fileEvents (env : Env) (engine : Nat) (root : Prim) (exts delim : JsVal)
    (path content : String) : List Event :=
  if extensionAllowed env exts path then
    [ .statSync path, .readFileSync path,
      .log "Loading Partial into Handlebars engine.",
      .log ("\tPartial Name Space: " ++ namespaceKey env root delim path),
      .log ("\tFull Path to NameSpace: " ++ path),
      .log "-----------------------------------------",
      .registerPartial engine (namespaceKey env root delim path) content ]
  else [ .statSync path ]

/-- The effects of one pass of the file loop over an entry. -/
def entryEvents (env : Env) (engine : Nat) (root : Prim) (exts delim : JsVal) :
    Node → List Event
  | .file _ path content => fileEvents env engine root exts delim path content
  | .dir _ path _ => [ .statSync path ]

/-- The effects of the file loop over the entries of a directory. -/
def ownEvents (env : Env) (engine : Nat) (root : Prim) (exts delim : JsVal) :
    List Node → List Event
  | [] => []
  | c :: cs => entryEvents env engine root exts delim c ++ ownEvents env engine root exts delim cs

mutual
/-- The effects of walking a node that is a directory; a file is not walked. -/
def Node.walkEvents (env : Env) (engine : Nat) (root : Prim) (exts delim : JsVal) :
    Node → List Event
  | .file _ _ _ => []
  | .dir _ path children =>
    [Event.readdirSync (.str path)] ++ ownEvents env engine root exts delim children
      ++ [Event.getDirPathsSync (.str path)] ++ walkEventsList env engine root exts delim children
/-- The effects of walking the subdirectories among the entries of a directory. -/
def walkEventsList (env : Env) (engine : Nat) (root : Prim) (exts delim : JsVal) :
    List Node → List Event
  | [] => []
  | c :: cs =>
    c.walkEvents env engine root exts delim ++ walkEventsList env engine root exts delim cs
end

/-- The effects of `loadPartials` on a directory with the given entries. -/
def dirEvents (env : Env) (engine : Nat) (root : Prim) (exts delim : JsVal) (dir : String)
    (entries : List Node) : List Event :=
  [Event.readdirSync (.str dir)] ++ ownEvents env engine root exts delim entries
    ++ [Event.getDirPathsSync (.str dir)] ++ walkEventsList env engine root exts delim entries

/-- The registration the walker makes for a file: engine, namespace key, content. -/
def registrationOf (env : Env) (engine : Nat) (root : Prim) (delim : JsVal)
    (f : String × String) : Nat × String × String :=
  (engine, namespaceKey env root delim f.1, f.2)

/-! ## Concrete inputs -/

/-- A tree with a nested partial: `templates/partials/sub/a.hbs`. -/
def nestedTree : Node :=
  .dir "templates" "templates"
    [ .dir "partials" "templates/partials"
        [ .dir "sub" "templates/partials/sub"
            [ .file "a.hbs" "templates/partials/sub/a.hbs" "A" ] ] ]

/-- Options for `nestedTree` with the delimiter `'.'`. -/
def dotDelimiterOptions : Options :=
  { scenarioOptions with delimiter_symbol := .prim (.str ".") }

/-- A tree with two root directories `t/a` and `t/b`, one template in each. -/
def twoRootsTree : Node :=
  .dir "t" "t"
    [ .dir "a" "t/a" [ .file "x.hbs" "t/a/x.hbs" "X" ],
      .dir "b" "t/b" [ .file "y.hbs" "t/b/y.hbs" "Y" ] ]

/-- Normalised options with the two roots of `twoRootsTree` and the sentinel. -/
def twoRootsOptions : Options :=
  { scenarioOptions with
    template_root_directories := .arr [.str "t/a", .str "t/b"]
    partials_directory_names := .arr [.str "."] }

/-- The scenario options without `template_extensions`. -/
def noExtensionsOptions : Options :=
  { scenarioOptions with template_extensions := .prim .undefined }

/-- The scenario options without any engine property. -/
def noEngineOptions : Options :=
  { scenarioOptions with
    engine_reference := .prim .undefined
    template_engine_reference := .prim .undefined }

/-- The scenario options as the documentation describes them: the engine is given
as `engine_reference` and there is no `template_engine_reference`. -/
def documentedOptions : Options :=
  { scenarioOptions with template_engine_reference := .prim .undefined }

/-- The scenario options with two different engines under the two property names. -/
def twoEnginesOptions : Options :=
  { scenarioOptions with
    engine_reference := .prim (.obj 1)
    template_engine_reference := .prim (.obj 2) }

/-- A tree with a file that has no extension: `docs/README`. -/
def readmeTree : Node :=
  .dir "docs" "docs" [ .file "README" "docs/README" "read me" ]

/-- Options for `readmeTree` with the given value of `template_extensions`. -/
def readmeOptions (template_extensions : JsVal) : Options :=
  { scenarioOptions with
    template_root_directories := .arr [.str "docs"]
    partials_directory_names := .arr [.str "."]
    template_extensions := template_extensions }

/-- A tree with a template whose extension is in upper case: `templates/a.HBS`. -/
def upperCaseEntries : List Node :=
  [ .file "a.HBS" "templates/a.HBS" "upper" ]

/-- The tree of `upperCaseEntries`. -/
def upperCaseTree : Node :=
  .dir "templates" "templates" upperCaseEntries

/-- Options that break every rule of the validator at once: the engine is a
string, the roots are a number, the directory names hold a number and the
extensions hold `null`. -/
def malformedOptions : Options :=
  { engine_reference := .prim (.str "not an engine")
    template_engine_reference := .prim .undefined
    template_root_directories := .prim (.num 5)
    partials_directory_names := .arr [.str "partials", .num 7]
    template_extensions := .arr [.null]
    delimiter_symbol := .prim (.str "/") }

/-- The scenario options with a number among the extensions and a string as the
engine reference. -/
def badElementOptions : Options :=
  { scenarioOptions with
    engine_reference := .prim (.str "not an engine")
    template_extensions := .arr [.str "hbs", .num 5] }

/-- The scenario options with the sentinel after another directory name. -/
def sentinelOptions : Options :=
  { scenarioOptions with partials_directory_names := .arr [.str "partials", .str "."] }

/-- The scenario options without `delimiter_symbol`. -/
def noDelimiterOptions : Options :=
  { scenarioOptions with delimiter_symbol := .prim .undefined }

/-- Normalised options with the two roots of `twoRootsTree` and a directory name
that no directory of the tree has. -/
def noMatchOptions : Options :=
  { scenarioOptions with
    template_root_directories := .arr [.str "t/a", .str "t/b"]
    partials_directory_names := .arr [.str "partials"] }

/-- The rule of the claim about a validated field: a non-empty string is replaced
by the one-element array holding it, and every other value is left as it is. -/
def WrapsNonEmptyString (before after : JsVal) : Prop :=
  (∀ s : String, before = .prim (.str s) → s ≠ "" → after = .arr [.str s]) ∧
  ((¬ ∃ s : String, s ≠ "" ∧ before = .prim (.str s)) → after = before)

/-- The entries of a directory `templates` that holds the dot-file `.hbs` and the
ordinary template `a.hbs`. -/
def dotFileEntries : List Node :=
  [ .file ".hbs" "templates/.hbs" "hidden", .file "a.hbs" "templates/a.hbs" "shown" ]

/-- The tree of `dotFileEntries`. -/
def dotFileTree : Node :=
  .dir "templates" "templates" dotFileEntries

/-- The scenario options with the sentinel alone as directory name. -/
def rootItselfOptions : Options :=
  { scenarioOptions with partials_directory_names := .arr [.str "."] }

/-- An allow-list that admits both files of the scenario. -/
def hbsAndTxt : JsVal := .arr [.str "hbs", .str "txt"]

/-- The error with which the filesystem operation recorded by an effect fails on
the given collaborators, if it fails; an effect that is not a filesystem operation
does not fail. -/
def Event.failure? (env : Env) : Event → Option JsError
  | .readdirSync path =>
    match env.readdirSync path with
    | .error e => some e
    | .ok _ => none
  | .statSync path =>
    match env.statSync path with
    | .error e => some e
    | .ok _ => none
  | .readFileSync path =>
    match env.readFileSync path with
    | .error e => some e
    | .ok _ => none
  | .getDirPathsSync path =>
    match env.getDirPathsSync path with
    | .error e => some e
    | .ok _ => none
  | .getDirPathsRecursivelyByNameSync root names =>
    match env.getDirPathsRecursivelyByNameSync root names with
    | .error e => some e
    | .ok _ => none
  | .log _ => none
  | .registerPartial _ _ _ => none

/-- No effect of the list is a failed filesystem operation. -/
def Clean (env : Env) (d : List Event) : Prop :=
  ∀ ev ∈ d, ev.failure? env = none

/-- The effects `d` end at the first failed filesystem operation, if any, and that
failure is the error `e`. -/
def CleanOrFailedLast (env : Env) (e : JsError) (d : List Event) : Prop :=
  Clean env d ∨ ∃ d0 ev, d = d0 ++ [ev] ∧ Clean env d0 ∧ ev.failure? env = some e

/-- The outcome `r` of a run started in state `st` stops at the first failed
filesystem operation: a run that returns has had no failure, and a run that
throws has had either no failure or one failure, as its last effect, whose error
is the one thrown. -/
def Res.FailStop (env : Env) (st : St) : Res → Prop
  | .outOfFuel => True
  | .threw e st1 => ∃ d, st1.trace = st.trace ++ d ∧ CleanOrFailedLast env e d
  | .done st1 => ∃ d, st1.trace = st.trace ++ d ∧ Clean env d

/-- The scenario filesystem on which no file can be read. -/
def unreadableEnv : Env :=
  { treeEnv scenarioTree with readFileSync := fun _ => .error (.ioError "EACCES") }

/-- Two states whose traces consist of the prefixes `p` and `p'` followed by the
same effects. -/
def St.Sim (p p' : List Event) (st st' : St) : Prop :=
  ∃ d, st.trace = p ++ d ∧ st'.trace = p' ++ d

/-- Two outcomes of the same kind, with the same error if they are throws, whose
states have added the same effects to the prefixes `p` and `p'`. -/
def Res.Sim (p p' : List Event) : Res → Res → Prop
  | .outOfFuel, .outOfFuel => True
  | .threw e st, .threw e' st' => e = e' ∧ St.Sim p p' st st'
  | .done st, .done st' => St.Sim p p' st st'
  | _, _ => False

/-- Like `Res.Sim`, and two normal completions also agree on the global `files`. -/
def Res.SimFiles (p p' : List Event) : Res → Res → Prop
  | .outOfFuel, .outOfFuel => True
  | .threw e st, .threw e' st' => e = e' ∧ St.Sim p p' st st'
  | .done st, .done st' => St.Sim p p' st st' ∧ st.files = st'.files
  | _, _ => False

/-- The state in which a run ended (the initial state when the fuel ran out). -/
def Res.finalState : Res → St
  | .outOfFuel => St.init
  | .threw _ st => st
  | .done st => st

/-- The scenario options as a caller may write them: plain strings for the three
list-valued options and no delimiter. -/
def rawScenarioOptions : Options :=
  { engine_reference := .prim (.obj 1)
    template_engine_reference := .prim (.obj 1)
    template_root_directories := .prim (.str "templates")
    partials_directory_names := .prim (.str "partials")
    template_extensions := .prim (.str "hbs")
    delimiter_symbol := .prim .undefined }

/-! # Properties -/

/-! ## The walker on a finite tree -/

theorem registrations_append (a b : List Event) :
    registrations (a ++ b) = registrations a ++ registrations b := by
  induction a with
  | nil => rfl
  | cons e es ih => cases e <;> simp [registrations, ih]

theorem fileBody_shown (env : Env) (engine : Nat) (root : Prim) (src : String)
    (exts delim : JsVal) (i : Nat) (st : St) (c : Node)
    (hname : st.files[i]? = some c.name) (hc : c.ShownBy env src) :
    ∃ s, fileBody env (.prim (.obj engine)) root (.str src) exts delim i st
      = .done { files := st.files, stat := some s,
                trace := st.trace ++ entryEvents env engine root exts delim c } := by
  cases c with
  | file name path content =>
    simp only [Node.ShownBy] at hc
    obtain ⟨hj, hs, hr⟩ := hc
    simp only [Node.name] at hname
    refine ⟨⟨true⟩, ?_⟩
    by_cases ha : extensionAllowed env exts path
    · have ha2 : (indexOf exts (.str (walkerExtension env path)) != -1) = true := ha
      simp [fileBody, hname, hj, hs, hr, St.emit, ha2, callRegisterPartial, entryEvents,
        fileEvents, ha]
    · have ha2 : (indexOf exts (.str (walkerExtension env path)) != -1) = false := by
        simpa [extensionAllowed] using ha
      simp [fileBody, hname, hj, hs, St.emit, ha2, entryEvents, fileEvents, ha]
  | dir name path children =>
    simp only [Node.ShownBy] at hc
    obtain ⟨hj, hs, _⟩ := hc
    simp only [Node.name] at hname
    refine ⟨⟨false⟩, ?_⟩
    simp [fileBody, hname, hj, hs, St.emit, entryEvents]

theorem fileLoop_shown (env : Env) (engine : Nat) (root : Prim) (src : String)
    (exts delim : JsVal) (suf : List Node) :
    ∀ (pre : List Node) (st : St) (fuel : Nat),
      st.files = (pre ++ suf).map Node.name → AllShownBy env src suf →
      suf.length + 1 ≤ fuel →
      ∃ st1, fileLoop env (.prim (.obj engine)) root (.str src) exts delim fuel pre.length st
          = .done st1 ∧
        st1.trace = st.trace ++ ownEvents env engine root exts delim suf := by
  induction suf with
  | nil =>
    intro pre st fuel hfiles _ hfuel
    obtain ⟨f, rfl⟩ : ∃ f, fuel = f + 1 := ⟨fuel - 1, by omega⟩
    refine ⟨st, ?_, by simp [ownEvents]⟩
    simp [fileLoop, hfiles]
  | cons c cs ih =>
    intro pre st fuel hfiles hshown hfuel
    obtain ⟨f, rfl⟩ : ∃ f, fuel = f + 1 := ⟨fuel - 1, by omega⟩
    simp only [AllShownBy] at hshown
    obtain ⟨hc, hcs⟩ := hshown
    have hname : st.files[pre.length]? = some c.name := by
      rw [hfiles, List.getElem?_map, List.getElem?_append_right (le_refl _)]
      simp
    obtain ⟨s, hbody⟩ := fileBody_shown env engine root src exts delim pre.length st c hname hc
    have hlt : pre.length < st.files.length := by
      rw [hfiles]; simp
    have hfiles1 : st.files = ((pre ++ [c]) ++ cs).map Node.name := by
      rw [hfiles]; simp
    obtain ⟨st1, hrun, htrace⟩ :=
      ih (pre ++ [c])
        { files := st.files, stat := some s,
          trace := st.trace ++ entryEvents env engine root exts delim c }
        f hfiles1 hcs (by simp at hfuel ⊢; omega)
    refine ⟨st1, ?_, ?_⟩
    · have hlen : (pre ++ [c]).length = pre.length + 1 := by simp
      rw [hlen] at hrun
      simp [fileLoop, hlt, hbody, hrun]
    · simp [htrace, ownEvents]

theorem fuel_le_fuelList (c : Node) (cs : List Node) (h : c ∈ cs) :
    c.fuel + 1 ≤ fuelList cs := by
  induction cs with
  | nil => simp at h
  | cons d ds ih =>
    simp only [fuelList]
    rcases List.mem_cons.mp h with rfl | h
    · omega
    · have := ih h
      omega

theorem length_le_fuelList (cs : List Node) : cs.length ≤ fuelList cs := by
  induction cs with
  | nil => simp [fuelList]
  | cons d ds ih => simp only [fuelList, List.length_cons]; omega

theorem loadPartials_shown (env : Env) (engine : Nat) (root : Prim) (exts delim : JsVal) :
    ∀ (fuel : Nat) (src : String) (entries : List Node) (st : St),
      TreeAt env src entries → fuelList entries + 2 ≤ fuel →
      ∃ st1, loadPartials env fuel (.prim (.obj engine)) root (.str src) exts delim st
          = .done st1 ∧
        st1.trace = st.trace ++ dirEvents env engine root exts delim src entries := by
  intro fuel
  induction fuel with
  | zero => intro src entries st _ h; omega
  | succ f ih =>
    intro src entries st htree hfuel
    obtain ⟨hread, hsubs, hall⟩ := htree
    have hlen := length_le_fuelList entries
    obtain ⟨st1, hloop, htr1⟩ :=
      fileLoop_shown env engine root src exts delim entries []
        { files := entries.map Node.name, stat := st.stat,
          trace := st.trace ++ [Event.readdirSync (.str src)] }
        f (by simp) hall (by omega)
    have hsub : ∀ (cs : List Node) (st2 : St), AllShownBy env src cs →
        (∀ c ∈ cs, c.fuel ≤ f) →
        ∃ st3, forEachDone
            (fun sub s => loadPartials env f (.prim (.obj engine)) root (.str sub) exts delim s)
            (cs.filterMap Node.dirPath?) st2 = .done st3 ∧
          st3.trace = st2.trace ++ walkEventsList env engine root exts delim cs := by
      intro cs
      induction cs with
      | nil =>
        intro st2 _ _
        exact ⟨st2, by simp [forEachDone], by simp [walkEventsList]⟩
      | cons c cs ihc =>
        intro st2 hsh hf
        simp only [AllShownBy] at hsh
        obtain ⟨hc, hcs⟩ := hsh
        have hf1 : ∀ d ∈ cs, d.fuel ≤ f := fun d hd => hf d (List.mem_cons_of_mem _ hd)
        cases c with
        | file n p ct =>
          obtain ⟨st3, h3, ht3⟩ := ihc st2 hcs hf1
          exact ⟨st3, by simpa [Node.dirPath?] using h3,
            by simp [walkEventsList, Node.walkEvents, ht3]⟩
        | dir n p ds =>
          simp only [Node.ShownBy] at hc
          obtain ⟨_, _, hrd, hgd, hds⟩ := hc
          have hfd : fuelList ds + 2 ≤ f := by
            have := hf _ (List.mem_cons_self _ _)
            simpa [Node.fuel] using this
          obtain ⟨st3, h3, ht3⟩ := ih p ds st2 ⟨hrd, hgd, hds⟩ hfd
          obtain ⟨st4, h4, ht4⟩ := ihc st3 hcs hf1
          refine ⟨st4, ?_, ?_⟩
          · simp [Node.dirPath?, forEachDone, h3, h4]
          · simp [ht4, ht3, walkEventsList, Node.walkEvents, dirEvents]
    have hfs : ∀ c ∈ entries, c.fuel ≤ f := by
      intro c hc
      have := fuel_le_fuelList c entries hc
      omega
    obtain ⟨st3, h3, ht3⟩ :=
      hsub entries { st1 with trace := st1.trace ++ [Event.getDirPathsSync (.str src)] } hall hfs
    refine ⟨st3, ?_, ?_⟩
    · simp only [List.length_nil] at hloop
      simp [loadPartials, hread, St.emit, hloop, hsubs, h3]
    · simp [ht3, htr1, dirEvents]

theorem registrations_entryEvents (env : Env) (engine : Nat) (root : Prim)
    (exts delim : JsVal) (c : Node) :
    registrations (entryEvents env engine root exts delim c)
      = ((ownFiles [c]).filter (fun f => extensionAllowed env exts f.1)).map
          (registrationOf env engine root delim) := by
  cases c with
  | file n p ct =>
    by_cases ha : extensionAllowed env exts p <;>
      simp [entryEvents, fileEvents, ha, registrations, ownFiles, Node.asFile?, registrationOf]
  | dir n p ds => simp [entryEvents, registrations, ownFiles, Node.asFile?]

theorem ownFiles_cons (c : Node) (cs : List Node) :
    ownFiles (c :: cs) = ownFiles [c] ++ ownFiles cs := by
  cases c <;> simp [ownFiles, Node.asFile?]

theorem registrations_ownEvents (env : Env) (engine : Nat) (root : Prim)
    (exts delim : JsVal) (cs : List Node) :
    registrations (ownEvents env engine root exts delim cs)
      = ((ownFiles cs).filter (fun f => extensionAllowed env exts f.1)).map
          (registrationOf env engine root delim) := by
  induction cs with
  | nil => simp [ownEvents, registrations, ownFiles]
  | cons c cs ih =>
    rw [ownFiles_cons]
    simp only [ownEvents, registrations_append, registrations_entryEvents, ih,
      List.filter_append, List.map_append]

mutual
theorem registrations_walkEvents (env : Env) (engine : Nat) (root : Prim)
    (exts delim : JsVal) : ∀ (c : Node),
    registrations (c.walkEvents env engine root exts delim)
      = (c.walkBelow.filter (fun f => extensionAllowed env exts f.1)).map
          (registrationOf env engine root delim)
  | .file _ _ _ => by simp [Node.walkEvents, Node.walkBelow, registrations]
  | .dir _ _ children => by
    simp only [Node.walkEvents, Node.walkBelow, registrations_append, registrations_ownEvents,
      registrations_walkEventsList env engine root exts delim children, List.filter_append,
      List.map_append]
    simp [registrations]
theorem registrations_walkEventsList (env : Env) (engine : Nat) (root : Prim)
    (exts delim : JsVal) : ∀ (cs : List Node),
    registrations (walkEventsList env engine root exts delim cs)
      = ((walkBelowList cs).filter (fun f => extensionAllowed env exts f.1)).map
          (registrationOf env engine root delim)
  | [] => by simp [walkEventsList, walkBelowList, registrations]
  | c :: cs => by
    simp only [walkEventsList, walkBelowList, registrations_append,
      registrations_walkEvents env engine root exts delim c,
      registrations_walkEventsList env engine root exts delim cs, List.filter_append,
      List.map_append]
end

theorem registrations_dirEvents (env : Env) (engine : Nat) (root : Prim)
    (exts delim : JsVal) (dir : String) (entries : List Node) :
    registrations (dirEvents env engine root exts delim dir entries)
      = ((walkOrder entries).filter (fun f => extensionAllowed env exts f.1)).map
          (registrationOf env engine root delim) := by
  simp only [dirEvents, walkOrder, registrations_append, registrations_ownEvents,
    registrations_walkEventsList, List.filter_append, List.map_append]
  simp [registrations]

mutual
theorem walkBelow_perm : ∀ (c : Node),
    (ownFiles [c] ++ c.walkBelow).Perm c.filesBeneath
  | .file _ _ _ => by simp [ownFiles, Node.asFile?, Node.walkBelow, Node.filesBeneath]
  | .dir _ _ children => by
    simpa [ownFiles, Node.asFile?, Node.walkBelow, Node.filesBeneath] using
      walkOrder_perm children
theorem walkOrder_perm : ∀ (cs : List Node),
    (ownFiles cs ++ walkBelowList cs).Perm (filesBeneathList cs)
  | [] => by simp [ownFiles, walkBelowList, filesBeneathList]
  | c :: cs => by
    rw [ownFiles_cons]
    simp only [walkBelowList, filesBeneathList]
    have h1 := walkBelow_perm c
    have h2 := walkOrder_perm cs
    have h3 : (ownFiles [c] ++ ownFiles cs ++ (c.walkBelow ++ walkBelowList cs)).Perm
        ((ownFiles [c] ++ c.walkBelow) ++ (ownFiles cs ++ walkBelowList cs)) := by
      simp only [List.append_assoc]
      refine List.Perm.append_left _ ?_
      rw [← List.append_assoc, ← List.append_assoc]
      exact List.Perm.append_right _ List.perm_append_comm
    exact h3.trans (h1.append h2)
end

theorem scenario_treeAt : TreeAt (treeEnv scenarioTree) "templates" scenarioEntries := by
  refine ⟨rfl, rfl, ?_⟩
  simp only [scenarioEntries, AllShownBy, Node.ShownBy, List.map, List.filterMap, Node.name,
    Node.dirPath?]
  exact ⟨⟨rfl, rfl, rfl, rfl, ⟨rfl, rfl, rfl⟩, trivial⟩, ⟨rfl, rfl, rfl⟩, trivial⟩

/-- C1: on a filesystem that shows a finite tree at the source directory without
any I/O error, one pass of `loadPartials` with enough fuel completes, and its
`registerPartial` calls are, in order, the registrations of a list `files` that is
a rearrangement of the regular files beneath the source directory whose extension
is in the allow-list: one call per such file, and when the files of the tree have
distinct paths no path occurs twice. -/
theorem C1_loadPartials_registers_each_allowed_file_once
    (env : Env) (engine : Nat) (root : Prim) (src : String) (entries : List Node)
    (exts delim : JsVal) (st : St) (fuel : Nat)
    (htree : TreeAt env src entries) (hfuel : fuelList entries + 2 ≤ fuel) :
    ∃ (st1 : St) (t : List Event) (files : List (String × String)),
      loadPartials env fuel (.prim (.obj engine)) root (.str src) exts delim st = .done st1 ∧
      st1.trace = st.trace ++ t ∧
      files.Perm ((filesBeneathList entries).filter (fun f => extensionAllowed env exts f.1)) ∧
      registrations t = files.map (registrationOf env engine root delim) ∧
      (((filesBeneathList entries).map Prod.fst).Nodup → (files.map Prod.fst).Nodup) := by
  obtain ⟨st1, hrun, htrace⟩ :=
    loadPartials_shown env engine root exts delim fuel src entries st htree hfuel
  have hperm : ((walkOrder entries).filter (fun f => extensionAllowed env exts f.1)).Perm
      ((filesBeneathList entries).filter (fun f => extensionAllowed env exts f.1)) :=
    (walkOrder_perm entries).filter _
  refine ⟨st1, dirEvents env engine root exts delim src entries,
    (walkOrder entries).filter (fun f => extensionAllowed env exts f.1), hrun, htrace, hperm,
    registrations_dirEvents env engine root exts delim src entries, ?_⟩
  intro hnodup
  have hsub : (((filesBeneathList entries).filter
      (fun f => extensionAllowed env exts f.1)).map Prod.fst).Sublist
      ((filesBeneathList entries).map Prod.fst) := List.Sublist.map _ (List.filter_sublist _)
  exact ((hperm.map Prod.fst).nodup_iff).mpr (hnodup.sublist hsub)

theorem C1_witness :
    TreeAt (treeEnv scenarioTree) "templates" scenarioEntries ∧
    fuelList scenarioEntries + 2 ≤ 10 ∧
    ∃ (st1 : St) (t : List Event) (files : List (String × String)),
      loadPartials (treeEnv scenarioTree) 10 (.prim (.obj 1)) (.str "templates")
        (.str "templates") (.arr [.str "hbs"]) (.prim (.str "/")) St.init = .done st1 ∧
      st1.trace = St.init.trace ++ t ∧
      files.Perm ((filesBeneathList scenarioEntries).filter
        (fun f => extensionAllowed (treeEnv scenarioTree) (.arr [.str "hbs"]) f.1)) ∧
      registrations t = files.map
        (registrationOf (treeEnv scenarioTree) 1 (.str "templates") (.prim (.str "/"))) ∧
      (((filesBeneathList scenarioEntries).map Prod.fst).Nodup →
        (files.map Prod.fst).Nodup) :=
  ⟨scenario_treeAt, by decide,
    C1_loadPartials_registers_each_allowed_file_once (treeEnv scenarioTree) 1
      (.str "templates") "templates" scenarioEntries (.arr [.str "hbs"]) (.prim (.str "/"))
      St.init 10 scenario_treeAt (by decide)⟩

/-! ## The effects of a walk on any filesystem -/

theorem Res.Extends.refl (P : Event → Prop) (st : St) : (Res.done st).Extends P st :=
  ⟨[], by simp, by simp⟩

theorem Res.Extends.trans (P : Event → Prop) (st st1 : St) (r : Res)
    (h1 : (Res.done st1).Extends P st) (h2 : r.Extends P st1) : r.Extends P st := by
  obtain ⟨t1, ht1, hp1⟩ := h1
  cases r with
  | outOfFuel => trivial
  | threw e st2 =>
    obtain ⟨t2, ht2, hp2⟩ := h2
    refine ⟨t1 ++ t2, by rw [ht2, ht1, List.append_assoc], ?_⟩
    intro e he
    rcases List.mem_append.mp he with h | h
    · exact hp1 e h
    · exact hp2 e h
  | done st2 =>
    obtain ⟨t2, ht2, hp2⟩ := h2
    refine ⟨t1 ++ t2, by rw [ht2, ht1, List.append_assoc], ?_⟩
    intro e he
    rcases List.mem_append.mp he with h | h
    · exact hp1 e h
    · exact hp2 e h

theorem Res.Extends.emit (P : Event → Prop) (st : St) (e : Event) (he : P e) :
    (Res.done (st.emit e)).Extends P st :=
  ⟨[e], rfl, by simpa using he⟩

theorem Res.Extends.emit_threw (P : Event → Prop) (st : St) (e : Event) (err : JsError)
    (he : P e) : (Res.threw err (st.emit e)).Extends P st :=
  ⟨[e], rfl, by simpa using he⟩

theorem fileBody_extends (env : Env) (engine : JsVal) (root cur : Prim) (exts delim : JsVal)
    (i : Nat) (st : St) :
    (fileBody env engine root cur exts delim i st).Extends (Event.FromWalker env engine exts) st := by
  unfold fileBody callRegisterPartial
  repeat' split
  all_goals try simp only [St.emit, List.append_assoc]
  all_goals repeat' split
  all_goals
    simp only [Res.Extends, St.emit, List.append_assoc]
    first
      | exact ⟨[], (List.append_nil _).symm, by simp⟩
      | exact ⟨_, rfl, by simp_all [Event.FromWalker, extensionAllowed]⟩

theorem fileLoop_extends (env : Env) (engine : JsVal) (root cur : Prim) (exts delim : JsVal) :
    ∀ (fuel i : Nat) (st : St),
      (fileLoop env engine root cur exts delim fuel i st).Extends
        (Event.FromWalker env engine exts) st := by
  intro fuel
  induction fuel with
  | zero => intro i st; trivial
  | succ f ih =>
    intro i st
    unfold fileLoop
    split
    · have hb := fileBody_extends env engine root cur exts delim i st
      cases hr : fileBody env engine root cur exts delim i st with
      | outOfFuel => trivial
      | threw e st1 => rw [hr] at hb; exact hb
      | done st1 =>
        rw [hr] at hb
        exact Res.Extends.trans _ st st1 _ hb (ih (i + 1) st1)
    · exact Res.Extends.refl _ st

theorem forEachDone_extends {α : Type} (P : Event → Prop) (f : α → St → Res)
    (hf : ∀ x st, (f x st).Extends P st) :
    ∀ (xs : List α) (st : St), (forEachDone f xs st).Extends P st := by
  intro xs
  induction xs with
  | nil => intro st; exact Res.Extends.refl _ st
  | cons x xs ih =>
    intro st
    unfold forEachDone
    have hx := hf x st
    cases hr : f x st with
    | outOfFuel => trivial
    | threw e st1 => rw [hr] at hx; exact hx
    | done st1 =>
      rw [hr] at hx
      exact Res.Extends.trans _ st st1 _ hx (ih st1)

theorem loadPartials_extends (env : Env) (engine : JsVal) (root : Prim) (exts delim : JsVal) :
    ∀ (fuel : Nat) (cur : Prim) (st : St),
      (loadPartials env fuel engine root cur exts delim st).Extends
        (Event.FromWalker env engine exts) st := by
  intro fuel
  induction fuel with
  | zero => intro cur st; trivial
  | succ f ih =>
    intro cur st
    have h0 : (Res.done (st.emit (.readdirSync cur))).Extends (Event.FromWalker env engine exts) st :=
      Res.Extends.emit _ st _ (by simp [Event.FromWalker])
    unfold loadPartials
    cases hread : env.readdirSync cur with
    | error e => exact Res.Extends.emit_threw _ st _ e (by simp [Event.FromWalker])
    | ok listing =>
      simp only
      have h1 : (Res.done { st.emit (.readdirSync cur) with files := listing }).Extends
          (Event.FromWalker env engine exts) st := h0
      have h2 := fileLoop_extends env engine root cur exts delim f 0
        { st.emit (.readdirSync cur) with files := listing }
      cases hloop : fileLoop env engine root cur exts delim f 0
          { st.emit (.readdirSync cur) with files := listing } with
      | outOfFuel => trivial
      | threw e st1 =>
        rw [hloop] at h2
        exact Res.Extends.trans _ st _ _ h1 h2
      | done st1 =>
        rw [hloop] at h2
        have h3 : (Res.done st1).Extends (Event.FromWalker env engine exts) st :=
          Res.Extends.trans _ st _ _ h1 h2
        simp only
        cases hsub : env.getDirPathsSync cur with
        | error e =>
          exact Res.Extends.trans _ st st1 _ h3
            (Res.Extends.emit_threw _ st1 _ e (by simp [Event.FromWalker]))
        | ok subs =>
          simp only
          refine Res.Extends.trans _ st (st1.emit (.getDirPathsSync cur)) _
            (Res.Extends.trans _ st st1 _ h3
              (Res.Extends.emit _ st1 _ (by simp [Event.FromWalker]))) ?_
          exact forEachDone_extends _ _ (fun sub s => ih (.str sub) s) subs _

/-! ## Validation -/

theorem checkElements_ok (msg : String) (xs : List Prim) : checkElements msg xs = .ok () := by
  induction xs with
  | nil => rfl
  | cons x xs ih =>
    simp only [checkElements]
    split
    · simp only [newErrorDropped, bind, Except.bind]; exact ih
    · exact ih

theorem validateEngineReference_ok (v : JsVal) : validateEngineReference v = .ok () := by
  unfold validateEngineReference newErrorDropped
  split <;> rfl

theorem validateTemplateRootDirectories_eq (v : JsVal) :
    validateTemplateRootDirectories v = .ok (wrapString v) := by
  unfold validateTemplateRootDirectories
  split
  · rfl
  · simp [checkElements_ok, wrapString, bind, Except.bind]
  · rename_i h1 h2
    cases v with
    | arr xs => exact absurd rfl (h2 xs)
    | prim q =>
      cases q <;> first
        | exact absurd rfl (h1 _)
        | simp [newErrorDropped, wrapString, bind, Except.bind]

theorem validatePartialDirectoryNames_eq (v : JsVal) :
    validatePartialDirectoryNames v = .ok (wrapString v) := by
  unfold validatePartialDirectoryNames
  split
  · rfl
  · simp [checkElements_ok, wrapString, bind, Except.bind]
  · rename_i h1 h2
    cases v with
    | arr xs => exact absurd rfl (h2 xs)
    | prim q =>
      cases q <;> first
        | exact absurd rfl (h1 _)
        | simp [newErrorDropped, wrapString, bind, Except.bind]

theorem validateTemplateExtensions_eq (v : JsVal) :
    validateTemplateExtensions v = .ok (wrapString v) := by
  unfold validateTemplateExtensions
  split
  · rfl
  · simp [checkElements_ok, wrapString, bind, Except.bind]
  · rename_i h1 h2
    cases v with
    | arr xs => exact absurd rfl (h2 xs)
    | prim q =>
      cases q <;> first
        | exact absurd rfl (h1 _)
        | simp [newErrorDropped, wrapString, bind, Except.bind]

theorem validateInput_eq (o : Options) : validateInput o = .ok (normalizeOptions o) := by
  obtain ⟨e, te, r, n, x, d⟩ := o
  unfold validateInput normalizeOptions normalizeField
  simp only [validateEngineReference_ok, validateTemplateRootDirectories_eq,
    validatePartialDirectoryNames_eq, validateTemplateExtensions_eq, newErrorDropped]
  by_cases h1 : e.truthy = true <;> by_cases h2 : r.truthy = true <;>
    by_cases h3 : n.truthy = true <;> by_cases h4 : x.truthy = true <;>
    simp [h1, h2, h3, h4, bind, Except.bind, pure, Except.pure]

theorem handlebars_eq (env : Env) (fuel : Nat) (o : Options) (st : St) :
    handlebars env fuel o st
      = (defaultDelimiter (normalizeOptions o),
          outerLoop env (defaultDelimiter (normalizeOptions o)) fuel 0 st) := by
  simp [handlebars, validateInput_eq]

/-! ## Runs on concrete inputs -/

/-- C2: with the root `templates`, the file `templates/partials/sub/a.hbs` and the
delimiter `'.'`, the walker registers the key `partials/sub/a.hbs`, not
`partials.sub.a.hbs`: line 76 replaces backslashes only, so the separator `/` of
the relative path stays.  A relative path written with backslashes does become
`partials.sub.a.hbs`, unless the delimiter is a replacement pattern such as `$&`,
which puts the backslash back. -/
theorem C2_slash_separated_key_keeps_its_slashes :
    (handlebars (treeEnv nestedTree) 20 dotDelimiterOptions St.init).2.completed = true ∧
    registrations (handlebars (treeEnv nestedTree) 20 dotDelimiterOptions St.init).2.trace
      = [(1, "partials/sub/a.hbs", "A")] ∧
    replaceBackslashes "partials/sub/a.hbs" "." = "partials/sub/a.hbs" ∧
    replaceBackslashes "partials\\sub\\a.hbs" "." = "partials.sub.a.hbs" ∧
    replaceBackslashes "partials\\sub\\a.hbs" "$&" = "partials\\sub\\a.hbs" := by
  decide

/-- C3: with the two roots `t/a` and `t/b` and the sentinel `'.'`, the call returns
normally after walking `t/a` alone: the inner loop leaves the shared counter at
1, the outer `i++` makes it 2, and the root at index 1 is never resolved, listed
or walked. -/
theorem C3_second_root_is_skipped :
    (handlebars (treeEnv twoRootsTree) 20 twoRootsOptions St.init).2.completed = true ∧
    listings (handlebars (treeEnv twoRootsTree) 20 twoRootsOptions St.init).2.trace
      = [.str "t/a"] ∧
    registrations (handlebars (treeEnv twoRootsTree) 20 twoRootsOptions St.init).2.trace
      = [(1, "x.hbs", "X")] := by
  decide

/-- C4: without `template_extensions` the call returns normally after four
filesystem operations; without any engine it throws a `TypeError` only at the first
registration, after four filesystem operations.  In neither case does the call
fail before the filesystem is touched. -/
theorem C4_missing_field_reaches_the_filesystem :
    (handlebars (treeEnv scenarioTree) 20 noExtensionsOptions St.init).2.completed = true ∧
    fsCalls (handlebars (treeEnv scenarioTree) 20 noExtensionsOptions St.init).2.trace
      = [ .getDirPathsRecursivelyByNameSync (.str "templates") (.arr [.str "partials"]),
          .readdirSync (.str "templates/partials"),
          .statSync "templates/partials/header.hbs",
          .getDirPathsSync (.str "templates/partials") ] ∧
    (handlebars (treeEnv scenarioTree) 20 noEngineOptions St.init).2.thrown?
      = some (.typeError "Cannot call method 'registerPartial'") ∧
    fsCalls (handlebars (treeEnv scenarioTree) 20 noEngineOptions St.init).2.trace
      = [ .getDirPathsRecursivelyByNameSync (.str "templates") (.arr [.str "partials"]),
          .readdirSync (.str "templates/partials"),
          .statSync "templates/partials/header.hbs",
          .readFileSync "templates/partials/header.hbs" ] := by
  decide

/-- C6: with the engine supplied as `engine_reference` only, the call throws a
`TypeError` at the first registration and registers nothing; with different
engines under `engine_reference` (1) and `template_engine_reference` (2), the
registration is made on engine 2.  Line 49 reads `template_engine_reference`. -/
theorem C6_registrations_go_to_template_engine_reference :
    (handlebars (treeEnv scenarioTree) 20 documentedOptions St.init).2.thrown?
      = some (.typeError "Cannot call method 'registerPartial'") ∧
    registrations (handlebars (treeEnv scenarioTree) 20 documentedOptions St.init).2.trace
      = [] ∧
    (handlebars (treeEnv scenarioTree) 20 twoEnginesOptions St.init).2.completed = true ∧
    registrations (handlebars (treeEnv scenarioTree) 20 twoEnginesOptions St.init).2.trace
      = [(2, "partials/header.hbs", "<h1>Hi</h1>")] := by
  decide

/-! ## Source resolution -/

theorem indexOfFrom_eq_neg_one_iff (v : Prim) (xs : List Prim) :
    ∀ (k : Nat), indexOfFrom v xs k = -1 ↔ v ∉ xs := by
  induction xs with
  | nil => intro k; simp [indexOfFrom]
  | cons x xs ih =>
    intro k
    unfold indexOfFrom
    by_cases hx : x = v
    · subst hx
      simp only [if_true, List.mem_cons, true_or, not_true_eq_false, iff_false]
      omega
    · have hx2 : ¬ v = x := fun h => hx h.symm
      simp [hx, hx2, ih (k + 1)]

theorem searches_append (a b : List Event) : searches (a ++ b) = searches a ++ searches b := by
  induction a with
  | nil => rfl
  | cons e es ih => cases e <;> simp [searches, ih]

theorem searches_fromWalker (env : Env) (engine exts : JsVal) (t : List Event)
    (h : ∀ e ∈ t, Event.FromWalker env engine exts e) : searches t = [] := by
  induction t with
  | nil => rfl
  | cons e es ih =>
    have he := h e (List.mem_cons_self _ _)
    have hes := ih (fun x hx => h x (List.mem_cons_of_mem _ hx))
    cases e <;> simp_all [searches, Event.FromWalker]

theorem loadPartials_searches (env : Env) (engine : JsVal) (root cur : Prim)
    (exts delim : JsVal) (fuel : Nat) (st : St) :
    loadPartials env fuel engine root cur exts delim st = .outOfFuel ∨
      searches (loadPartials env fuel engine root cur exts delim st).trace
        = searches st.trace := by
  have h := loadPartials_extends env engine root exts delim fuel cur st
  cases hr : loadPartials env fuel engine root cur exts delim st with
  | outOfFuel => exact Or.inl rfl
  | threw e st1 =>
    rw [hr] at h
    obtain ⟨t, ht, hp⟩ := h
    right
    simp [Res.trace, ht, searches_append, searches_fromWalker env engine exts t hp]
  | done st1 =>
    rw [hr] at h
    obtain ⟨t, ht, hp⟩ := h
    right
    simp [Res.trace, ht, searches_append, searches_fromWalker env engine exts t hp]

/-- C5: when the normalised directory names contain `'.'`, the resolution of the
root at index `i` leaves the state as it is (no name search is made) and yields
exactly the list `[root]`, whatever else the names hold; the loop body for that
root is one call of `loadPartials` on the root, after which the outer loop goes on
at index 2; and that walk adds no name search to the trace. -/
theorem C5_sentinel_resolves_to_the_root_alone (env : Env) (o : Options)
    (names roots : List Prim) (i fuel : Nat) (st : St)
    (hnames : o.partials_directory_names = .arr names) (hdot : Prim.str "." ∈ names)
    (hroots : o.template_root_directories = .arr roots) (hi : i < roots.length) :
    resolveSources env o i st = (st, .ok [o.template_root_directories.index i]) ∧
    outerLoop env o (fuel + 3) i st =
      (match loadPartials env (fuel + 1) o.template_engine_reference
          (o.template_root_directories.index i) (o.template_root_directories.index i)
          o.template_extensions o.delimiter_symbol st with
        | .done st1 => outerLoop env o (fuel + 2) 2 st1
        | r => r) ∧
    (loadPartials env (fuel + 1) o.template_engine_reference
        (o.template_root_directories.index i) (o.template_root_directories.index i)
        o.template_extensions o.delimiter_symbol st = .outOfFuel ∨
      searches (loadPartials env (fuel + 1) o.template_engine_reference
        (o.template_root_directories.index i) (o.template_root_directories.index i)
        o.template_extensions o.delimiter_symbol st).trace = searches st.trace) := by
  have hidx : (indexOf o.partials_directory_names (.str ".") == -1) = false := by
    have hne : indexOfFrom (.str ".") names 0 ≠ -1 := fun h =>
      ((indexOfFrom_eq_neg_one_iff _ names 0).mp h) hdot
    simpa [indexOf, hnames, JsVal.elements] using hne
  have hres : resolveSources env o i st = (st, .ok [o.template_root_directories.index i]) := by
    simp [resolveSources, hidx]
  refine ⟨hres, ?_, loadPartials_searches env _ _ _ _ _ _ st⟩
  have hlen : o.template_root_directories.length = .ok (some roots.length) := by
    simp [hroots, JsVal.length]
  rw [outerLoop, hlen]
  simp only [ltLength, hi, decide_True, if_true, hres]
  rw [innerLoop]
  simp only [List.length_singleton, Nat.lt_one_iff, if_true, List.getD_cons_zero]
  cases hr : loadPartials env (fuel + 1) o.template_engine_reference
      (o.template_root_directories.index i) (o.template_root_directories.index i)
      o.template_extensions o.delimiter_symbol st with
  | outOfFuel => rfl
  | threw e st1 => rfl
  | done st1 => simp [innerLoop]

theorem C5_witness :
    sentinelOptions.partials_directory_names = .arr [.str "partials", .str "."] ∧
    Prim.str "." ∈ [Prim.str "partials", Prim.str "."] ∧
    sentinelOptions.template_root_directories = .arr [.str "templates"] ∧
    0 < [Prim.str "templates"].length ∧
    resolveSources (treeEnv scenarioTree) sentinelOptions 0 St.init
      = (St.init, .ok [sentinelOptions.template_root_directories.index 0]) ∧
    outerLoop (treeEnv scenarioTree) sentinelOptions (5 + 3) 0 St.init =
      (match loadPartials (treeEnv scenarioTree) (5 + 1)
          sentinelOptions.template_engine_reference
          (sentinelOptions.template_root_directories.index 0)
          (sentinelOptions.template_root_directories.index 0)
          sentinelOptions.template_extensions sentinelOptions.delimiter_symbol St.init with
        | .done st1 => outerLoop (treeEnv scenarioTree) sentinelOptions (5 + 2) 2 st1
        | r => r) ∧
    (loadPartials (treeEnv scenarioTree) (5 + 1) sentinelOptions.template_engine_reference
        (sentinelOptions.template_root_directories.index 0)
        (sentinelOptions.template_root_directories.index 0)
        sentinelOptions.template_extensions sentinelOptions.delimiter_symbol St.init
          = .outOfFuel ∨
      searches (loadPartials (treeEnv scenarioTree) (5 + 1)
        sentinelOptions.template_engine_reference
        (sentinelOptions.template_root_directories.index 0)
        (sentinelOptions.template_root_directories.index 0)
        sentinelOptions.template_extensions sentinelOptions.delimiter_symbol St.init).trace
        = searches St.init.trace) :=
  ⟨rfl, by decide, rfl, by decide,
    C5_sentinel_resolves_to_the_root_alone (treeEnv scenarioTree) sentinelOptions
      [.str "partials", .str "."] [.str "templates"] 0 5 St.init rfl (by decide) rfl
      (by decide)⟩

/-! ## The extension allow-list -/

theorem extensionAllowed_arr_iff (env : Env) (xs : List Prim) (p : String) :
    extensionAllowed env (.arr xs) p = true ↔ Prim.str (walkerExtension env p) ∈ xs := by
  have h := indexOfFrom_eq_neg_one_iff (.str (walkerExtension env p)) xs 0
  simp only [extensionAllowed, indexOf, JsVal.elements, bne_iff_ne, ne_eq]
  rw [h]
  exact not_not

theorem fileBody_not_allowed (env : Env) (engine : JsVal) (root cur : Prim)
    (exts delim : JsVal) (i : Nat) (st : St) (name fullPath : String)
    (hname : st.files[i]? = some name) (hjoin : env.join cur name = .ok fullPath)
    (hext : extensionAllowed env exts fullPath = false) :
    (fileBody env engine root cur exts delim i st).trace
      = st.trace ++ [.statSync fullPath] := by
  have hext2 : (indexOf exts (.str (walkerExtension env fullPath)) != -1) = false := hext
  unfold fileBody
  simp only [hname, hjoin]
  cases hs : env.statSync fullPath with
  | error e => simp [Res.trace, St.emit]
  | ok s =>
    cases hf : s.isFile <;> simp [Res.trace, St.emit, hf, hext2]

theorem walkOrder_mem (entries : List Node) (f : String × String)
    (h : f ∈ walkOrder entries) : f ∈ filesBeneathList entries :=
  ((walkOrder_perm entries).mem_iff).mp h

/-- C7: on a filesystem that shows a finite tree without I/O error, every
`registerPartial` call of a pass is the registration of a file of the tree whose
extension is in the allow-list; membership in an array allow-list is equality of
strings with one of its elements; and on any filesystem, the pass of the file loop
over a file whose extension is not in the allow-list does nothing but `statSync`
it: the file is neither read nor registered. -/
theorem C7_only_allowed_extensions_are_registered
    (env : Env) (engine : Nat) (root : Prim) (src : String) (entries : List Node)
    (exts delim : JsVal) (st : St) (fuel : Nat)
    (htree : TreeAt env src entries) (hfuel : fuelList entries + 2 ≤ fuel) :
    (∃ (st1 : St) (t : List Event) (files : List (String × String)),
      loadPartials env fuel (.prim (.obj engine)) root (.str src) exts delim st = .done st1 ∧
      st1.trace = st.trace ++ t ∧
      registrations t = files.map (registrationOf env engine root delim) ∧
      ∀ f ∈ files, f ∈ filesBeneathList entries ∧ extensionAllowed env exts f.1 = true) ∧
    (∀ (xs : List Prim) (p : String),
      extensionAllowed env (.arr xs) p = true ↔ Prim.str (walkerExtension env p) ∈ xs) ∧
    (∀ (eng : JsVal) (cur : Prim) (i : Nat) (s : St) (name fullPath : String),
      s.files[i]? = some name → env.join cur name = .ok fullPath →
      extensionAllowed env exts fullPath = false →
      (fileBody env eng root cur exts delim i s).trace = s.trace ++ [.statSync fullPath]) := by
  refine ⟨?_, extensionAllowed_arr_iff env, ?_⟩
  · obtain ⟨st1, hrun, htrace⟩ :=
      loadPartials_shown env engine root exts delim fuel src entries st htree hfuel
    refine ⟨st1, dirEvents env engine root exts delim src entries,
      (walkOrder entries).filter (fun f => extensionAllowed env exts f.1), hrun, htrace,
      registrations_dirEvents env engine root exts delim src entries, ?_⟩
    intro f hf
    obtain ⟨hmem, hallowed⟩ := List.mem_filter.mp hf
    exact ⟨walkOrder_mem entries f hmem, hallowed⟩
  · intro eng cur i s name fullPath hname hjoin hext
    exact fileBody_not_allowed env eng root cur exts delim i s name fullPath hname hjoin hext

theorem upperCase_treeAt : TreeAt (treeEnv upperCaseTree) "templates" upperCaseEntries := by
  refine ⟨rfl, rfl, ?_⟩
  simp only [upperCaseEntries, AllShownBy, Node.ShownBy]
  exact ⟨⟨rfl, rfl, rfl⟩, trivial⟩

theorem C7_witness :
    TreeAt (treeEnv upperCaseTree) "templates" upperCaseEntries ∧
    fuelList upperCaseEntries + 2 ≤ 5 ∧
    registrations (loadPartials (treeEnv upperCaseTree) 5 (.prim (.obj 1)) (.str "templates")
      (.str "templates") (.arr [.str "hbs"]) (.prim (.str "/")) St.init).trace = [] ∧
    ((∃ (st1 : St) (t : List Event) (files : List (String × String)),
      loadPartials (treeEnv upperCaseTree) 5 (.prim (.obj 1)) (.str "templates")
        (.str "templates") (.arr [.str "hbs"]) (.prim (.str "/")) St.init = .done st1 ∧
      st1.trace = St.init.trace ++ t ∧
      registrations t = files.map
        (registrationOf (treeEnv upperCaseTree) 1 (.str "templates") (.prim (.str "/"))) ∧
      ∀ f ∈ files, f ∈ filesBeneathList upperCaseEntries ∧
        extensionAllowed (treeEnv upperCaseTree) (.arr [.str "hbs"]) f.1 = true) ∧
    (∀ (xs : List Prim) (p : String),
      extensionAllowed (treeEnv upperCaseTree) (.arr xs) p = true
        ↔ Prim.str (walkerExtension (treeEnv upperCaseTree) p) ∈ xs) ∧
    (∀ (eng : JsVal) (cur : Prim) (i : Nat) (s : St) (name fullPath : String),
      s.files[i]? = some name → (treeEnv upperCaseTree).join cur name = .ok fullPath →
      extensionAllowed (treeEnv upperCaseTree) (.arr [.str "hbs"]) fullPath = false →
      (fileBody (treeEnv upperCaseTree) eng (.str "templates") cur (.arr [.str "hbs"])
        (.prim (.str "/")) i s).trace = s.trace ++ [.statSync fullPath])) :=
  ⟨upperCase_treeAt, by decide, by decide,
    C7_only_allowed_extensions_are_registered (treeEnv upperCaseTree) 1 (.str "templates")
      "templates" upperCaseEntries (.arr [.str "hbs"]) (.prim (.str "/")) St.init 5
      upperCase_treeAt (by decide)⟩

/-! ## Strings and one-element arrays -/

theorem normalizeField_str (s : String) (hs : s ≠ "") :
    normalizeField (.prim (.str s)) = .arr [.str s] := by
  simp [normalizeField, JsVal.truthy, Prim.truthy, hs, wrapString]

theorem normalizeField_arr (xs : List Prim) : normalizeField (.arr xs) = .arr xs := by
  simp [normalizeField, JsVal.truthy, wrapString]

/-- C8, as stated, fails for the empty string: on a directory `docs` holding the
file `README`, with the sentinel, the call with `template_extensions: ''`
registers nothing, and the call with `template_extensions: ['']` registers
`README`.  The empty string is falsy, so `validateInput` never wraps it. -/
theorem C8_empty_string_differs_from_its_singleton :
    registrations (handlebars (treeEnv readmeTree) 20
      (readmeOptions (.prim (.str ""))) St.init).2.trace = [] ∧
    registrations (handlebars (treeEnv readmeTree) 20
      (readmeOptions (.arr [.str ""])) St.init).2.trace = [(1, "README", "read me")] ∧
    registrations (handlebars (treeEnv readmeTree) 20
      (readmeOptions (.prim (.str ""))) St.init).2.trace
      ≠ registrations (handlebars (treeEnv readmeTree) 20
        (readmeOptions (.arr [.str ""])) St.init).2.trace := by
  decide

/-- C8, amended: for every string `s`, the empty string included, each `validate*`
function returns `[s]` for the string `s` and for the array `[s]`; and for every
non-empty string `s`, every filesystem and every amount of fuel,
`exports.handlebars` called with `s` as `template_root_directories`,
`partials_directory_names` or `template_extensions` leaves the same options and
has the same outcome, with the same trace, as the call with `[s]` there. -/
theorem C8_string_is_wrapped_and_nonempty_behaves_as_singleton (env : Env) (fuel : Nat)
    (o : Options) (st : St) (s : String) :
    (validateTemplateRootDirectories (.prim (.str s)) = .ok (.arr [.str s]) ∧
      validatePartialDirectoryNames (.prim (.str s)) = .ok (.arr [.str s]) ∧
      validateTemplateExtensions (.prim (.str s)) = .ok (.arr [.str s])) ∧
    (validateTemplateRootDirectories (.arr [.str s]) = .ok (.arr [.str s]) ∧
      validatePartialDirectoryNames (.arr [.str s]) = .ok (.arr [.str s]) ∧
      validateTemplateExtensions (.arr [.str s]) = .ok (.arr [.str s])) ∧
    (s ≠ "" →
      handlebars env fuel { o with template_root_directories := .prim (.str s) } st
        = handlebars env fuel { o with template_root_directories := .arr [.str s] } st ∧
      handlebars env fuel { o with partials_directory_names := .prim (.str s) } st
        = handlebars env fuel { o with partials_directory_names := .arr [.str s] } st ∧
      handlebars env fuel { o with template_extensions := .prim (.str s) } st
        = handlebars env fuel { o with template_extensions := .arr [.str s] } st) := by
  refine ⟨⟨?_, ?_, ?_⟩, ⟨?_, ?_, ?_⟩, ?_⟩
  · rw [validateTemplateRootDirectories_eq]; rfl
  · rw [validatePartialDirectoryNames_eq]; rfl
  · rw [validateTemplateExtensions_eq]; rfl
  · rw [validateTemplateRootDirectories_eq]; rfl
  · rw [validatePartialDirectoryNames_eq]; rfl
  · rw [validateTemplateExtensions_eq]; rfl
  · intro hs
    refine ⟨?_, ?_, ?_⟩
    · simp only [handlebars_eq, normalizeOptions, normalizeField_str s hs, normalizeField_arr]
    · simp only [handlebars_eq, normalizeOptions, normalizeField_str s hs, normalizeField_arr]
    · simp only [handlebars_eq, normalizeOptions, normalizeField_str s hs, normalizeField_arr]

theorem C8_witness :
    (validateTemplateRootDirectories (.prim (.str "")) = .ok (.arr [.str ""]) ∧
      validatePartialDirectoryNames (.prim (.str "")) = .ok (.arr [.str ""]) ∧
      validateTemplateExtensions (.prim (.str "")) = .ok (.arr [.str ""])) ∧
    (validateTemplateRootDirectories (.arr [.str ""]) = .ok (.arr [.str ""]) ∧
      validatePartialDirectoryNames (.arr [.str ""]) = .ok (.arr [.str ""]) ∧
      validateTemplateExtensions (.arr [.str ""]) = .ok (.arr [.str ""])) ∧
    ("hbs" : String) ≠ "" ∧
    (validateTemplateRootDirectories (.prim (.str "hbs")) = .ok (.arr [.str "hbs"]) ∧
      validatePartialDirectoryNames (.prim (.str "hbs")) = .ok (.arr [.str "hbs"]) ∧
      validateTemplateExtensions (.prim (.str "hbs")) = .ok (.arr [.str "hbs"])) ∧
    (validateTemplateRootDirectories (.arr [.str "hbs"]) = .ok (.arr [.str "hbs"]) ∧
      validatePartialDirectoryNames (.arr [.str "hbs"]) = .ok (.arr [.str "hbs"]) ∧
      validateTemplateExtensions (.arr [.str "hbs"]) = .ok (.arr [.str "hbs"])) ∧
    handlebars (treeEnv scenarioTree) 20
        { scenarioOptions with template_root_directories := .prim (.str "hbs") } St.init
      = handlebars (treeEnv scenarioTree) 20
        { scenarioOptions with template_root_directories := .arr [.str "hbs"] } St.init ∧
    handlebars (treeEnv scenarioTree) 20
        { scenarioOptions with partials_directory_names := .prim (.str "hbs") } St.init
      = handlebars (treeEnv scenarioTree) 20
        { scenarioOptions with partials_directory_names := .arr [.str "hbs"] } St.init ∧
    handlebars (treeEnv scenarioTree) 20
        { scenarioOptions with template_extensions := .prim (.str "hbs") } St.init
      = handlebars (treeEnv scenarioTree) 20
        { scenarioOptions with template_extensions := .arr [.str "hbs"] } St.init :=
  ⟨(C8_string_is_wrapped_and_nonempty_behaves_as_singleton (treeEnv scenarioTree) 20
      scenarioOptions St.init "").1,
    (C8_string_is_wrapped_and_nonempty_behaves_as_singleton (treeEnv scenarioTree) 20
      scenarioOptions St.init "").2.1,
    by decide,
    (C8_string_is_wrapped_and_nonempty_behaves_as_singleton (treeEnv scenarioTree) 20
      scenarioOptions St.init "hbs").1,
    (C8_string_is_wrapped_and_nonempty_behaves_as_singleton (treeEnv scenarioTree) 20
      scenarioOptions St.init "hbs").2.1,
    (C8_string_is_wrapped_and_nonempty_behaves_as_singleton (treeEnv scenarioTree) 20
      scenarioOptions St.init "hbs").2.2 (by decide)⟩

/-! ## The default delimiter -/

/-- C9: when the options have no `delimiter_symbol`, the options object the call
leaves has `delimiter_symbol` equal to `'/'`, the loop over the roots is run with
those options from its first iteration on, and the whole call, outcome and trace,
is the call made with `delimiter_symbol: '/'`. -/
theorem C9_missing_delimiter_defaults_to_slash (env : Env) (fuel : Nat) (o : Options)
    (st : St) (hd : o.delimiter_symbol = .prim .undefined) :
    (handlebars env fuel o st).1.delimiter_symbol = .prim (.str "/") ∧
    (handlebars env fuel o st).2 = outerLoop env (handlebars env fuel o st).1 fuel 0 st ∧
    handlebars env fuel o st
      = handlebars env fuel { o with delimiter_symbol := .prim (.str "/") } st := by
  obtain ⟨e, te, r, n, x, d⟩ := o
  simp only at hd
  subst hd
  simp [handlebars_eq, normalizeOptions, defaultDelimiter, JsVal.truthy, Prim.truthy]

theorem C9_witness :
    noDelimiterOptions.delimiter_symbol = .prim .undefined ∧
    (handlebars (treeEnv scenarioTree) 20 noDelimiterOptions St.init).1.delimiter_symbol
      = .prim (.str "/") ∧
    (handlebars (treeEnv scenarioTree) 20 noDelimiterOptions St.init).2
      = outerLoop (treeEnv scenarioTree)
          (handlebars (treeEnv scenarioTree) 20 noDelimiterOptions St.init).1 20 0 St.init ∧
    handlebars (treeEnv scenarioTree) 20 noDelimiterOptions St.init
      = handlebars (treeEnv scenarioTree) 20
          { noDelimiterOptions with delimiter_symbol := .prim (.str "/") } St.init :=
  ⟨rfl, C9_missing_delimiter_defaults_to_slash (treeEnv scenarioTree) 20 noDelimiterOptions
    St.init rfl⟩

/-! ## Malformed options -/

/-- C10: for options whose engine is a string, whose roots are a number, whose
directory names hold a number and whose extensions hold `null`, `validateInput`
returns normally and leaves the options as they are, and `exports.handlebars`
returns normally without any effect; with a number among the extensions and a
string as engine reference, the call returns normally after registering the
scenario partial.  The error objects are built and never thrown. -/
theorem C10_malformed_options_are_accepted :
    validateInput malformedOptions = .ok malformedOptions ∧
    handlebars (treeEnv scenarioTree) 20 malformedOptions St.init
      = (malformedOptions, .done St.init) ∧
    validateInput badElementOptions = .ok badElementOptions ∧
    (handlebars (treeEnv scenarioTree) 20 badElementOptions St.init).2.completed = true ∧
    registrations (handlebars (treeEnv scenarioTree) 20 badElementOptions St.init).2.trace
      = [(1, "partials/header.hbs", "<h1>Hi</h1>")] := by
  refine ⟨rfl, ?_, rfl, ?_, ?_⟩ <;> decide

/-! ## The shared loop counter -/

theorem noMatch_stays_at_index_one :
    ∀ (fuel : Nat) (st : St),
      outerLoop (treeEnv twoRootsTree) noMatchOptions fuel 1 st = .outOfFuel := by
  intro fuel
  induction fuel with
  | zero => intro st; rfl
  | succ f ih =>
    intro st
    have hlen : noMatchOptions.template_root_directories.length = .ok (some 2) := rfl
    have hres : resolveSources (treeEnv twoRootsTree) noMatchOptions 1 st
        = (st.emit (.getDirPathsRecursivelyByNameSync (.str "t/b") (.arr [.str "partials"])),
            .ok []) := rfl
    rw [outerLoop, hlen]
    simp only [ltLength, hres]
    cases f with
    | zero => rfl
    | succ g =>
      simp only [innerLoop, List.length_nil, Nat.lt_irrefl, if_false]
      exact ih _

/-- C12: with the two roots `t/a` and `t/b` and a directory name that matches
nothing, the call never returns and never throws: for every amount of fuel the
run is still going.  Each root resolves to no source directory, so the inner loop
resets the shared counter to 0, the outer `i++` makes it 1, and the root at index
1 is resolved again and again. -/
theorem C12_roots_without_matches_loop_forever :
    ∀ (fuel : Nat),
      (handlebars (treeEnv twoRootsTree) fuel noMatchOptions St.init).2 = .outOfFuel := by
  intro fuel
  have hopt : defaultDelimiter (normalizeOptions noMatchOptions) = noMatchOptions := by decide
  rw [handlebars_eq, hopt]
  cases fuel with
  | zero => rfl
  | succ f =>
    have hlen : noMatchOptions.template_root_directories.length = .ok (some 2) := rfl
    have hres : resolveSources (treeEnv twoRootsTree) noMatchOptions 0 St.init
        = (St.init.emit
            (.getDirPathsRecursivelyByNameSync (.str "t/a") (.arr [.str "partials"])),
            .ok []) := rfl
    show outerLoop (treeEnv twoRootsTree) noMatchOptions (f + 1) 0 St.init = .outOfFuel
    rw [outerLoop, hlen]
    simp only [ltLength, hres]
    cases f with
    | zero => rfl
    | succ g =>
      simp only [innerLoop, List.length_nil, Nat.lt_irrefl, if_false]
      exact noMatch_stays_at_index_one _ _

theorem innerLoop_done_counter (env : Env) (o : Options) (root : Prim) (found : List Prim) :
    ∀ (fuel i : Nat) (st : St) (i1 : Nat) (st1 : St),
      innerLoop env o root found fuel i st = (i1, .done st1) → i ≤ found.length →
      i1 = found.length := by
  intro fuel
  induction fuel with
  | zero =>
    intro i st i1 st1 h _
    simp [innerLoop] at h
  | succ f ih =>
    intro i st i1 st1 h hle
    unfold innerLoop at h
    by_cases hlt : i < found.length
    · simp only [hlt, if_true] at h
      cases hr : loadPartials env f o.template_engine_reference root
          (found.getD i .undefined) o.template_extensions o.delimiter_symbol st with
      | outOfFuel => rw [hr] at h; simp at h
      | threw e s => rw [hr] at h; simp at h
      | done s =>
        rw [hr] at h
        exact ih (i + 1) s i1 st1 h hlt
    · simp only [hlt, if_false, Prod.mk.injEq, Res.done.injEq] at h
      omega

/-- C16: when the root at index `i` resolves to the list `found` of source
directories and the inner loop over them completes, the shared counter is left at
the length `k` of `found`, the outer loop goes on at index `k + 1` whatever `i`
was, and when `k + 1` is not below the number of roots the call returns there. -/
theorem C16_next_root_index_is_sources_plus_one (env : Env) (o : Options)
    (roots : List Prim) (i fuel : Nat) (st st' : St) (found : List Prim) (i1 : Nat) (st1 : St)
    (hroots : o.template_root_directories = .arr roots) (hi : i < roots.length)
    (hres : resolveSources env o i st = (st', .ok found))
    (hinner : innerLoop env o (o.template_root_directories.index i) found fuel 0 st'
      = (i1, .done st1)) :
    i1 = found.length ∧
    outerLoop env o (fuel + 1) i st = outerLoop env o fuel (found.length + 1) st1 ∧
    (roots.length ≤ found.length + 1 → outerLoop env o (fuel + 1) i st = .done st1) := by
  have hk : i1 = found.length :=
    innerLoop_done_counter env o _ found fuel 0 st' i1 st1 hinner (Nat.zero_le _)
  subst hk
  have hlen : o.template_root_directories.length = .ok (some roots.length) := by
    simp [hroots, JsVal.length]
  have hstep : outerLoop env o (fuel + 1) i st
      = outerLoop env o fuel (found.length + 1) st1 := by
    rw [outerLoop, hlen]
    simp only [ltLength, hi, decide_True, if_true, hres, hinner]
  refine ⟨rfl, hstep, ?_⟩
  intro hge
  rw [hstep]
  cases fuel with
  | zero => simp [innerLoop] at hinner
  | succ f =>
    have hnot : ¬ found.length + 1 < roots.length := by omega
    rw [outerLoop, hlen]
    simp [ltLength, hnot]

theorem C16_witness :
    noMatchOptions.template_root_directories = .arr [.str "t/a", .str "t/b"] ∧
    1 < [Prim.str "t/a", Prim.str "t/b"].length ∧
    resolveSources (treeEnv twoRootsTree) noMatchOptions 1 St.init
      = (St.init.emit (.getDirPathsRecursivelyByNameSync (.str "t/b") (.arr [.str "partials"])),
          .ok []) ∧
    innerLoop (treeEnv twoRootsTree) noMatchOptions
        (noMatchOptions.template_root_directories.index 1) [] 5 0
        (St.init.emit (.getDirPathsRecursivelyByNameSync (.str "t/b") (.arr [.str "partials"])))
      = (0, .done (St.init.emit
          (.getDirPathsRecursivelyByNameSync (.str "t/b") (.arr [.str "partials"])))) ∧
    0 = ([] : List Prim).length ∧
    outerLoop (treeEnv twoRootsTree) noMatchOptions (5 + 1) 1 St.init
      = outerLoop (treeEnv twoRootsTree) noMatchOptions 5 (([] : List Prim).length + 1)
          (St.init.emit
            (.getDirPathsRecursivelyByNameSync (.str "t/b") (.arr [.str "partials"]))) ∧
    ([Prim.str "t/a", Prim.str "t/b"].length ≤ ([] : List Prim).length + 1 →
      outerLoop (treeEnv twoRootsTree) noMatchOptions (5 + 1) 1 St.init
        = .done (St.init.emit
            (.getDirPathsRecursivelyByNameSync (.str "t/b") (.arr [.str "partials"])))) :=
  ⟨rfl, by decide, rfl, rfl,
    C16_next_root_index_is_sources_plus_one (treeEnv twoRootsTree) noMatchOptions
      [.str "t/a", .str "t/b"] 1 5 St.init _ [] 0 _ rfl (by decide) rfl rfl⟩

/-! ## The frame of validation -/

theorem normalizeField_wraps (v : JsVal) : WrapsNonEmptyString v (normalizeField v) := by
  constructor
  · intro s hv hs
    subst hv
    exact normalizeField_str s hs
  · intro hno
    cases v with
    | arr xs => exact normalizeField_arr xs
    | prim p =>
      cases p with
      | str s =>
        by_cases hs : s = ""
        · subst hs
          simp [normalizeField, JsVal.truthy, Prim.truthy]
        · exact absurd ⟨s, hs, rfl⟩ hno
      | undefined => simp [normalizeField, JsVal.truthy, Prim.truthy]
      | null => simp [normalizeField, JsVal.truthy, Prim.truthy]
      | bool b => simp [normalizeField, wrapString]
      | num n => simp [normalizeField, wrapString]
      | obj id => simp [normalizeField, wrapString]

/-- C17: for every options object `validateInput` returns normally; the object it
leaves has the same `engine_reference`, `template_engine_reference` and
`delimiter_symbol`, and each of `template_root_directories`,
`partials_directory_names` and `template_extensions` is the one-element array of
the old value when that was a non-empty string and is the old value otherwise
(arrays, with string elements or not, the empty string and everything else). -/
theorem C17_validateInput_only_wraps_nonempty_strings (o : Options) :
    ∃ o1 : Options, validateInput o = .ok o1 ∧
      o1.engine_reference = o.engine_reference ∧
      o1.template_engine_reference = o.template_engine_reference ∧
      o1.delimiter_symbol = o.delimiter_symbol ∧
      WrapsNonEmptyString o.template_root_directories o1.template_root_directories ∧
      WrapsNonEmptyString o.partials_directory_names o1.partials_directory_names ∧
      WrapsNonEmptyString o.template_extensions o1.template_extensions ∧
      (∀ xs : List Prim, o.template_root_directories = .arr xs →
        o1.template_root_directories = .arr xs) ∧
      (∀ xs : List Prim, o.partials_directory_names = .arr xs →
        o1.partials_directory_names = .arr xs) ∧
      (∀ xs : List Prim, o.template_extensions = .arr xs →
        o1.template_extensions = .arr xs) := by
  refine ⟨normalizeOptions o, validateInput_eq o, rfl, rfl, rfl,
    normalizeField_wraps _, normalizeField_wraps _, normalizeField_wraps _, ?_, ?_, ?_⟩
  · intro xs h
    simp [normalizeOptions, h, normalizeField_arr]
  · intro xs h
    simp [normalizeOptions, h, normalizeField_arr]
  · intro xs h
    simp [normalizeOptions, h, normalizeField_arr]

/-! ## The extension of a file name -/

theorem takeWhile_append_stop {α : Type} (p : α → Bool) (l r : List α) (a : α)
    (hl : ∀ x ∈ l, p x = true) (ha : p a = false) : (l ++ a :: r).takeWhile p = l := by
  induction l with
  | nil => simp [List.takeWhile, ha]
  | cons x xs ih =>
    have hx := hl x (List.mem_cons_self _ _)
    have ih1 := ih (fun y hy => hl y (List.mem_cons_of_mem _ hy))
    simp [List.takeWhile, hx, ih1]

theorem dropWhile_head_stop {α : Type} (p : α → Bool) (l : List α)
    (h : ∀ x, l.head? = some x → p x = false) : l.dropWhile p = l := by
  cases l with
  | nil => rfl
  | cons x xs => simp [List.dropWhile, h x rfl]

theorem basenameChars_join (dir name : List Char) (hne : name ≠ [])
    (hs : ∀ c ∈ name, c ≠ '/') : basenameChars (dir ++ '/' :: name) = name := by
  unfold basenameChars
  have hrev : (dir ++ '/' :: name).reverse = name.reverse ++ '/' :: dir.reverse := by simp
  rw [hrev]
  have hdrop : (name.reverse ++ '/' :: dir.reverse).dropWhile (fun c => decide (c = '/'))
      = name.reverse ++ '/' :: dir.reverse := by
    apply dropWhile_head_stop
    intro x hx
    have hmem : x ∈ name := by
      cases hn : name.reverse with
      | nil => exact absurd (List.reverse_eq_nil_iff.mp hn) hne
      | cons y ys =>
        rw [hn] at hx
        simp only [List.cons_append, List.head?_cons, Option.some.injEq] at hx
        subst hx
        have : y ∈ name.reverse := by rw [hn]; exact List.mem_cons_self _ _
        exact List.mem_reverse.mp this
    simpa using hs x hmem
  rw [hdrop, takeWhile_append_stop]
  · simp
  · intro x hx
    simpa using hs x (List.mem_reverse.mp hx)
  · simp

theorem posixExtname_join (dir : String) (pre suf : List Char)
    (hpre : ∀ c ∈ pre, c ≠ '/') (hsuf : ∀ c ∈ suf, c ≠ '/' ∧ c ≠ '.') :
    slice1 (posixExtname (dir ++ "/" ++ String.mk (pre ++ '.' :: suf)))
      = if pre = [] then "" else String.mk suf := by
  have hdata : (dir ++ "/" ++ String.mk (pre ++ '.' :: suf)).data
      = dir.data ++ '/' :: (pre ++ '.' :: suf) := by
    simp [String.data_append]
  have hbase : basenameChars (dir.data ++ '/' :: (pre ++ '.' :: suf)) = pre ++ '.' :: suf := by
    apply basenameChars_join
    · simp
    · intro c hc
      rcases List.mem_append.mp hc with h | h
      · exact hpre c h
      · rcases List.mem_cons.mp h with h | h
        · subst h; decide
        · exact (hsuf c h).1
  have hafter : ((pre ++ '.' :: suf).reverse.takeWhile (fun c => decide (c ≠ '.'))).reverse
      = suf := by
    have hrev : (pre ++ '.' :: suf).reverse = suf.reverse ++ '.' :: pre.reverse := by simp
    rw [hrev, takeWhile_append_stop]
    · simp
    · intro x hx
      simpa using (hsuf x (List.mem_reverse.mp hx)).2
    · simp
  unfold posixExtname
  simp only [hdata, hbase, hafter]
  by_cases hp : pre = []
  · subst hp
    simp [slice1]
  · have hlen1 : ¬ suf.length = (pre ++ '.' :: suf).length := by simp; omega
    have hlen2 : ¬ suf.length + 1 = (pre ++ '.' :: suf).length := by
      have : 0 < pre.length := List.length_pos.mpr hp
      simp only [List.length_append, List.length_cons]
      omega
    simp only [hlen1, hlen2, if_false, hp]
    by_cases hdots : pre ++ '.' :: suf = ['.', '.']
    · have hsufnil : suf = [] := by
        have hl := congrArg List.length hdots
        have : 0 < pre.length := List.length_pos.mpr hp
        simp at hl
        exact List.length_eq_zero.mp (by omega)
      subst hsufnil
      simp [hdots, slice1]
    · simp [hdots, slice1]

/-- C13, as stated, fails for a name whose only `.` is its first character: for
the file `templates/.hbs` the walker computes the empty extension, because
`path.extname` gives `''` for such a name, and with the allow-list `['hbs']` the
call registers `a.hbs` and not `.hbs`. -/
theorem C13_dot_file_has_no_extension :
    walkerExtension (treeEnv dotFileTree) "templates/.hbs" = "" ∧
    extensionAllowed (treeEnv dotFileTree) (.arr [.str "hbs"]) "templates/.hbs" = false ∧
    (handlebars (treeEnv dotFileTree) 20 rootItselfOptions St.init).2.completed = true ∧
    registrations (handlebars (treeEnv dotFileTree) 20 rootItselfOptions St.init).2.trace
      = [(1, "a.hbs", "shown")] := by
  decide

/-- C13, amended: with `path.extname` as Node.js defines it, for a file name
`pre.suf` in any directory, where `suf` holds no `.` (so the `.` shown is the last
one) and the name holds no `/`, the extension the walker tests is `suf`, the text
after the last `.` without the dot, when `pre` is not empty, and is the empty
string when `pre` is empty, that is when the only `.` of the name is its first
character; so for an array allow-list the file passes the test exactly when `suf`
(or, for a leading dot, the empty string) is one of its elements. -/
theorem C13_extension_is_text_after_last_dot_unless_dot_leads (env : Env)
    (dir : String) (pre suf : List Char) (xs : List Prim)
    (hext : env.extname = posixExtname)
    (hpre : ∀ c ∈ pre, c ≠ '/') (hsuf : ∀ c ∈ suf, c ≠ '/' ∧ c ≠ '.') :
    walkerExtension env (dir ++ "/" ++ String.mk (pre ++ '.' :: suf))
      = (if pre = [] then "" else String.mk suf) ∧
    (extensionAllowed env (.arr xs) (dir ++ "/" ++ String.mk (pre ++ '.' :: suf)) = true
      ↔ Prim.str (if pre = [] then "" else String.mk suf) ∈ xs) := by
  have h1 : walkerExtension env (dir ++ "/" ++ String.mk (pre ++ '.' :: suf))
      = (if pre = [] then "" else String.mk suf) := by
    unfold walkerExtension
    rw [hext]
    exact posixExtname_join dir pre suf hpre hsuf
  refine ⟨h1, ?_⟩
  rw [extensionAllowed_arr_iff, h1]

theorem C13_witness :
    (treeEnv dotFileTree).extname = posixExtname ∧
    (∀ c ∈ ['a'], c ≠ '/') ∧
    (∀ c ∈ ['h', 'b', 's'], c ≠ '/' ∧ c ≠ '.') ∧
    walkerExtension (treeEnv dotFileTree)
        ("templates" ++ "/" ++ String.mk (['a'] ++ '.' :: ['h', 'b', 's']))
      = (if ['a'] = [] then "" else String.mk ['h', 'b', 's']) ∧
    (extensionAllowed (treeEnv dotFileTree) (.arr [.str "hbs"])
        ("templates" ++ "/" ++ String.mk (['a'] ++ '.' :: ['h', 'b', 's'])) = true
      ↔ Prim.str (if ['a'] = [] then "" else String.mk ['h', 'b', 's']) ∈ [Prim.str "hbs"]) :=
  ⟨rfl, by decide, by decide,
    C13_extension_is_text_after_last_dot_unless_dot_leads (treeEnv dotFileTree) "templates"
      ['a'] ['h', 'b', 's'] [.str "hbs"] rfl (by decide) (by decide)⟩

/-! ## Traversal order -/

/-- C14: on a filesystem that shows a finite tree at a directory without I/O
error, the effects of `loadPartials` on that directory are the listing, then the
effects `own` of the file loop, then the subdirectory search, then the effects
`below` of the recursive calls: `own` holds the registrations of the matching
files directly inside the directory, one pass per entry in listing order, `below`
those of the files inside its subdirectories, so every registration of an own
file comes before every registration from a subdirectory; each subdirectory
contributes a segment of the same shape.  The globals `files` and `stat`, which the
recursive calls overwrite, do not change what the file loop did. -/
theorem C14_own_files_are_registered_before_subdirectories
    (env : Env) (engine : Nat) (root : Prim) (src : String) (entries : List Node)
    (exts delim : JsVal) (st : St) (fuel : Nat)
    (htree : TreeAt env src entries) (hfuel : fuelList entries + 2 ≤ fuel) :
    ∃ (st1 : St) (own below : List Event),
      loadPartials env fuel (.prim (.obj engine)) root (.str src) exts delim st = .done st1 ∧
      st1.trace = st.trace ++ [Event.readdirSync (.str src)] ++ own
        ++ [Event.getDirPathsSync (.str src)] ++ below ∧
      own = ownEvents env engine root exts delim entries ∧
      below = walkEventsList env engine root exts delim entries ∧
      registrations own = ((ownFiles entries).filter
        (fun f => extensionAllowed env exts f.1)).map (registrationOf env engine root delim) ∧
      registrations below = ((walkBelowList entries).filter
        (fun f => extensionAllowed env exts f.1)).map (registrationOf env engine root delim) ∧
      registrations ([Event.readdirSync (.str src)] ++ own
        ++ [Event.getDirPathsSync (.str src)] ++ below)
        = registrations own ++ registrations below ∧
      (∀ (name path : String) (children : List Node),
        (Node.dir name path children).walkEvents env engine root exts delim
          = dirEvents env engine root exts delim path children) := by
  obtain ⟨st1, hrun, htrace⟩ :=
    loadPartials_shown env engine root exts delim fuel src entries st htree hfuel
  refine ⟨st1, ownEvents env engine root exts delim entries,
    walkEventsList env engine root exts delim entries, hrun, ?_, rfl, rfl,
    registrations_ownEvents env engine root exts delim entries,
    registrations_walkEventsList env engine root exts delim entries, ?_, ?_⟩
  · rw [htrace]
    simp [dirEvents, List.append_assoc]
  · simp [registrations_append, registrations]
  · intro name path children
    simp [Node.walkEvents, dirEvents]

theorem C14_witness :
    TreeAt (treeEnv scenarioTree) "templates" scenarioEntries ∧
    fuelList scenarioEntries + 2 ≤ 10 ∧
    registrations (loadPartials (treeEnv scenarioTree) 10 (.prim (.obj 1)) (.str "templates")
        (.str "templates") hbsAndTxt (.prim (.str "/")) St.init).trace
      = [(1, "skip.txt", "skip"), (1, "partials/header.hbs", "<h1>Hi</h1>")] ∧
    ∃ (st1 : St) (own below : List Event),
      loadPartials (treeEnv scenarioTree) 10 (.prim (.obj 1)) (.str "templates")
        (.str "templates") hbsAndTxt (.prim (.str "/")) St.init = .done st1 ∧
      st1.trace = St.init.trace ++ [Event.readdirSync (.str "templates")] ++ own
        ++ [Event.getDirPathsSync (.str "templates")] ++ below ∧
      own = ownEvents (treeEnv scenarioTree) 1 (.str "templates") hbsAndTxt (.prim (.str "/"))
        scenarioEntries ∧
      below = walkEventsList (treeEnv scenarioTree) 1 (.str "templates") hbsAndTxt
        (.prim (.str "/")) scenarioEntries ∧
      registrations own = ((ownFiles scenarioEntries).filter
        (fun f => extensionAllowed (treeEnv scenarioTree) hbsAndTxt f.1)).map
          (registrationOf (treeEnv scenarioTree) 1 (.str "templates") (.prim (.str "/"))) ∧
      registrations below = ((walkBelowList scenarioEntries).filter
        (fun f => extensionAllowed (treeEnv scenarioTree) hbsAndTxt f.1)).map
          (registrationOf (treeEnv scenarioTree) 1 (.str "templates") (.prim (.str "/"))) ∧
      registrations ([Event.readdirSync (.str "templates")] ++ own
        ++ [Event.getDirPathsSync (.str "templates")] ++ below)
        = registrations own ++ registrations below ∧
      (∀ (name path : String) (children : List Node),
        (Node.dir name path children).walkEvents (treeEnv scenarioTree) 1 (.str "templates")
            hbsAndTxt (.prim (.str "/"))
          = dirEvents (treeEnv scenarioTree) 1 (.str "templates") hbsAndTxt
              (.prim (.str "/")) path children) :=
  ⟨scenario_treeAt, by decide, by decide,
    C14_own_files_are_registered_before_subdirectories (treeEnv scenarioTree) 1
      (.str "templates") "templates" scenarioEntries hbsAndTxt (.prim (.str "/")) St.init 10
      scenario_treeAt (by decide)⟩

/-! ## Failures of the filesystem -/

theorem clean_nil (env : Env) : Clean env [] := by
  intro ev h
  simp at h

theorem clean_append (env : Env) (a b : List Event) (ha : Clean env a) (hb : Clean env b) :
    Clean env (a ++ b) := by
  intro ev h
  rcases List.mem_append.mp h with h | h
  · exact ha ev h
  · exact hb ev h

theorem failStop_refl (env : Env) (st : St) : (Res.done st).FailStop env st :=
  ⟨[], by simp, clean_nil env⟩

theorem failStop_trans (env : Env) (st st1 : St) (r : Res)
    (h1 : (Res.done st1).FailStop env st) (h2 : r.FailStop env st1) : r.FailStop env st := by
  obtain ⟨d1, ht1, hc1⟩ := h1
  cases r with
  | outOfFuel => trivial
  | done st2 =>
    obtain ⟨d2, ht2, hc2⟩ := h2
    exact ⟨d1 ++ d2, by rw [ht2, ht1, List.append_assoc], clean_append env d1 d2 hc1 hc2⟩
  | threw e st2 =>
    obtain ⟨d2, ht2, hc2⟩ := h2
    refine ⟨d1 ++ d2, by rw [ht2, ht1, List.append_assoc], ?_⟩
    rcases hc2 with hc2 | ⟨d0, ev, hd, hc0, hf⟩
    · exact Or.inl (clean_append env d1 d2 hc1 hc2)
    · exact Or.inr ⟨d1 ++ d0, ev, by rw [hd, List.append_assoc],
        clean_append env d1 d0 hc1 hc0, hf⟩

theorem failStop_emit (env : Env) (st : St) (ev : Event) (h : ev.failure? env = none) :
    (Res.done (st.emit ev)).FailStop env st :=
  ⟨[ev], rfl, by intro x hx; simp at hx; subst hx; exact h⟩

theorem failStop_emit_failed (env : Env) (st : St) (ev : Event) (e : JsError)
    (h : ev.failure? env = some e) : (Res.threw e (st.emit ev)).FailStop env st :=
  ⟨[ev], rfl, Or.inr ⟨[], ev, rfl, clean_nil env, h⟩⟩

theorem failStop_threw_clean (env : Env) (st st1 : St) (e : JsError)
    (h : (Res.done st1).FailStop env st) : (Res.threw e st1).FailStop env st := by
  obtain ⟨d, ht, hc⟩ := h
  exact ⟨d, ht, Or.inl hc⟩

theorem failStop_same_trace (env : Env) (st st1 st2 : St) (h : st2.trace = st1.trace)
    (h1 : (Res.done st1).FailStop env st) : (Res.done st2).FailStop env st := by
  obtain ⟨d, ht, hc⟩ := h1
  exact ⟨d, by rw [h, ht], hc⟩

theorem fileBody_failStop (env : Env) (engine : JsVal) (root cur : Prim) (exts delim : JsVal)
    (i : Nat) (st : St) :
    (fileBody env engine root cur exts delim i st).FailStop env st := by
  unfold fileBody callRegisterPartial
  cases st.files[i]? with
  | none => exact failStop_threw_clean env st st _ (failStop_refl env st)
  | some name =>
    simp only
    cases env.join cur name with
    | error e => exact failStop_threw_clean env st st _ (failStop_refl env st)
    | ok fullPath =>
      simp only
      cases hs : env.statSync fullPath with
      | error e =>
        exact failStop_emit_failed env st _ e (by simp [Event.failure?, hs])
      | ok s =>
        have h1 : (Res.done (st.emit (.statSync fullPath))).FailStop env st :=
          failStop_emit env st _ (by simp [Event.failure?, hs])
        simp only
        by_cases hf : s.isFile = true
        · simp only [hf, if_true]
          by_cases ha : (indexOf exts (.str (walkerExtension env fullPath)) != -1) = true
          · simp only [ha, if_true]
            cases hr : env.readFileSync fullPath with
            | error e =>
              exact failStop_trans env st _ _
                (failStop_same_trace env st _ _ rfl h1)
                (failStop_emit_failed env _ _ e (by simp [Event.failure?, hr]))
            | ok template =>
              have h2 : (Res.done
                  (((((({ st.emit (.statSync fullPath) with stat := some s } : St).emit
                    (.readFileSync fullPath)).emit
                    (.log "Loading Partial into Handlebars engine.")).emit
                    (.log ("\tPartial Name Space: "
                      ++ namespaceKey env root delim fullPath))).emit
                    (.log ("\tFull Path to NameSpace: " ++ fullPath))).emit
                    (.log "-----------------------------------------"))).FailStop env st := by
                refine ⟨[.statSync fullPath, .readFileSync fullPath,
                  .log "Loading Partial into Handlebars engine.",
                  .log ("\tPartial Name Space: " ++ namespaceKey env root delim fullPath),
                  .log ("\tFull Path to NameSpace: " ++ fullPath),
                  .log "-----------------------------------------"], by simp [St.emit], ?_⟩
                intro ev hev
                simp only [List.mem_cons, List.mem_singleton, List.not_mem_nil, or_false]
                  at hev
                rcases hev with h | h | h | h | h | h <;> subst h <;>
                  simp [Event.failure?, hs, hr]
              simp only
              cases engine with
              | arr xs => exact failStop_threw_clean env st _ _ h2
              | prim q =>
                cases q with
                | obj id =>
                  exact failStop_trans env st _ _ h2
                    (failStop_emit env _ _ (by simp [Event.failure?]))
                | undefined => exact failStop_threw_clean env st _ _ h2
                | null => exact failStop_threw_clean env st _ _ h2
                | bool b => exact failStop_threw_clean env st _ _ h2
                | num n => exact failStop_threw_clean env st _ _ h2
                | str s0 => exact failStop_threw_clean env st _ _ h2
          · simp only [ha, if_false]
            exact failStop_same_trace env st _ _ rfl h1
        · simp only [hf, if_false]
          exact failStop_same_trace env st _ _ rfl h1

theorem fileLoop_failStop (env : Env) (engine : JsVal) (root cur : Prim)
    (exts delim : JsVal) :
    ∀ (fuel i : Nat) (st : St),
      (fileLoop env engine root cur exts delim fuel i st).FailStop env st := by
  intro fuel
  induction fuel with
  | zero => intro i st; trivial
  | succ f ih =>
    intro i st
    unfold fileLoop
    split
    · have hb := fileBody_failStop env engine root cur exts delim i st
      cases hr : fileBody env engine root cur exts delim i st with
      | outOfFuel => trivial
      | threw e st1 => rw [hr] at hb; exact hb
      | done st1 =>
        rw [hr] at hb
        exact failStop_trans env st st1 _ hb (ih (i + 1) st1)
    · exact failStop_refl env st

theorem forEachDone_failStop {α : Type} (env : Env) (f : α → St → Res)
    (hf : ∀ x st, (f x st).FailStop env st) :
    ∀ (xs : List α) (st : St), (forEachDone f xs st).FailStop env st := by
  intro xs
  induction xs with
  | nil => intro st; exact failStop_refl env st
  | cons x xs ih =>
    intro st
    unfold forEachDone
    have hx := hf x st
    cases hr : f x st with
    | outOfFuel => trivial
    | threw e st1 => rw [hr] at hx; exact hx
    | done st1 =>
      rw [hr] at hx
      exact failStop_trans env st st1 _ hx (ih st1)

theorem loadPartials_failStop (env : Env) (engine : JsVal) (root : Prim)
    (exts delim : JsVal) :
    ∀ (fuel : Nat) (cur : Prim) (st : St),
      (loadPartials env fuel engine root cur exts delim st).FailStop env st := by
  intro fuel
  induction fuel with
  | zero => intro cur st; trivial
  | succ f ih =>
    intro cur st
    unfold loadPartials
    cases hread : env.readdirSync cur with
    | error e =>
      exact failStop_emit_failed env st _ e (by simp [Event.failure?, hread])
    | ok listing =>
      simp only
      have h1 : (Res.done { st.emit (.readdirSync cur) with files := listing }).FailStop env st :=
        failStop_same_trace env st (st.emit (.readdirSync cur)) _ rfl
          (failStop_emit env st _ (by simp [Event.failure?, hread]))
      have h2 := fileLoop_failStop env engine root cur exts delim f 0
        { st.emit (.readdirSync cur) with files := listing }
      cases hloop : fileLoop env engine root cur exts delim f 0
          { st.emit (.readdirSync cur) with files := listing } with
      | outOfFuel => trivial
      | threw e st1 =>
        rw [hloop] at h2
        exact failStop_trans env st _ _ h1 h2
      | done st1 =>
        rw [hloop] at h2
        have h3 : (Res.done st1).FailStop env st := failStop_trans env st _ _ h1 h2
        simp only
        cases hsub : env.getDirPathsSync cur with
        | error e =>
          exact failStop_trans env st st1 _ h3
            (failStop_emit_failed env st1 _ e (by simp [Event.failure?, hsub]))
        | ok subs =>
          simp only
          refine failStop_trans env st (st1.emit (.getDirPathsSync cur)) _
            (failStop_trans env st st1 _ h3
              (failStop_emit env st1 _ (by simp [Event.failure?, hsub]))) ?_
          exact forEachDone_failStop env _ (fun sub s => ih (.str sub) s) subs _

theorem innerLoop_failStop (env : Env) (o : Options) (root : Prim) (found : List Prim) :
    ∀ (fuel i : Nat) (st : St),
      (innerLoop env o root found fuel i st).2.FailStop env st := by
  intro fuel
  induction fuel with
  | zero => intro i st; trivial
  | succ f ih =>
    intro i st
    unfold innerLoop
    split
    · have hb := loadPartials_failStop env o.template_engine_reference root
        o.template_extensions o.delimiter_symbol f (found.getD i .undefined) st
      cases hr : loadPartials env f o.template_engine_reference root
          (found.getD i .undefined) o.template_extensions o.delimiter_symbol st with
      | outOfFuel => trivial
      | threw e st1 => rw [hr] at hb; exact hb
      | done st1 =>
        rw [hr] at hb
        exact failStop_trans env st st1 _ hb (ih (i + 1) st1)
    · exact failStop_refl env st

theorem resolveSources_failStop (env : Env) (o : Options) (i : Nat) (st : St) :
    (match resolveSources env o i st with
      | (st1, .error e) => Res.threw e st1
      | (st1, .ok _) => Res.done st1).FailStop env st := by
  unfold resolveSources
  by_cases hdot : (indexOf o.partials_directory_names (.str ".") == -1) = true
  · simp only [hdot, if_true]
    cases hs : env.getDirPathsRecursivelyByNameSync (o.template_root_directories.index i)
        o.partials_directory_names with
    | error e =>
      exact failStop_emit_failed env st
        (.getDirPathsRecursivelyByNameSync (o.template_root_directories.index i)
          o.partials_directory_names) e (by simp [Event.failure?, hs])
    | ok found =>
      exact failStop_emit env st
        (.getDirPathsRecursivelyByNameSync (o.template_root_directories.index i)
          o.partials_directory_names) (by simp [Event.failure?, hs])
  · simp only [hdot, if_false]
    exact failStop_refl env st

theorem outerLoop_failStop (env : Env) (o : Options) :
    ∀ (fuel i : Nat) (st : St), (outerLoop env o fuel i st).FailStop env st := by
  intro fuel
  induction fuel with
  | zero => intro i st; trivial
  | succ f ih =>
    intro i st
    unfold outerLoop
    cases o.template_root_directories.length with
    | error e => exact failStop_threw_clean env st st _ (failStop_refl env st)
    | ok len =>
      simp only
      split
      · have hres := resolveSources_failStop env o i st
        cases hrs : resolveSources env o i st with
        | mk st1 out =>
          rw [hrs] at hres
          cases out with
          | error e => exact hres
          | ok found =>
            simp only at hres ⊢
            have hin := innerLoop_failStop env o (o.template_root_directories.index i)
              found f 0 st1
            cases hi : innerLoop env o (o.template_root_directories.index i) found f 0 st1 with
            | mk i1 r =>
              rw [hi] at hin
              cases r with
              | outOfFuel => trivial
              | threw e st2 => exact failStop_trans env st st1 _ hres hin
              | done st2 =>
                exact failStop_trans env st st2 _
                  (failStop_trans env st st1 _ hres hin) (ih (i1 + 1) st2)
      · exact failStop_refl env st

theorem handlebars_failStop (env : Env) (fuel : Nat) (o : Options) (st : St) :
    (handlebars env fuel o st).2.FailStop env st := by
  rw [handlebars_eq]
  exact outerLoop_failStop env _ fuel 0 st

theorem failed_event_is_last (env : Env) (e : JsError) (d pre post : List Event) (ev : Event)
    (hd : d = pre ++ ev :: post) (hf : ev.failure? env = some e) (e1 : JsError)
    (hc : CleanOrFailedLast env e1 d) : post = [] ∧ e1 = e ∧ Clean env pre := by
  have hmem : ev ∈ d := by rw [hd]; simp
  rcases hc with hc | ⟨d0, ev0, hd0, hc0, hf0⟩
  · have := hc ev hmem
    rw [hf] at this
    cases this
  · rw [hd] at hd0
    rcases List.append_eq_append_iff.mp hd0 with ⟨a, ha1, ha2⟩ | ⟨c, hc1, hc2⟩
    · cases a with
      | nil =>
        simp only [List.nil_append, List.cons.injEq, List.singleton_inj] at ha2
        have hev : ev = ev0 := by
          cases post with
          | nil => simpa using ha2
          | cons x xs => simp at ha2
        have hpost : post = [] := by
          cases post with
          | nil => rfl
          | cons x xs => simp at ha2
        subst hev
        rw [hf] at hf0
        refine ⟨hpost, (Option.some.inj hf0).symm, ?_⟩
        rw [ha1, List.append_nil] at hc0
        exact hc0
      | cons x xs =>
        simp only [List.cons_append, List.cons.injEq] at ha2
        have hin : ev ∈ d0 := by rw [ha1, ← ha2.1]; simp
        have := hc0 ev hin
        rw [hf] at this
        cases this
    · cases c with
      | nil =>
        simp only [List.nil_append, List.cons.injEq] at hc2
        obtain ⟨hev, hpost⟩ := hc2
        subst hev
        rw [hf] at hf0
        refine ⟨hpost.symm, (Option.some.inj hf0).symm, ?_⟩
        rw [hc1, List.append_nil]
        exact hc0
      | cons x xs =>
        have hl := congrArg List.length hc2
        simp at hl

/-- C15: if the trace of a call of `exports.handlebars` holds a filesystem
operation (a listing, a stat, a file read or one of the two `fs-helper` searches)
that failed with the error `e`, then nothing at all follows it in the trace, so no
`registerPartial` call and no operation on a later file, source directory or
root; the call threw exactly `e`; and no operation before it had failed. -/
theorem C15_first_filesystem_failure_ends_the_call (env : Env) (fuel : Nat) (o : Options)
    (st : St) (pre post : List Event) (ev : Event) (e : JsError)
    (htrace : (handlebars env fuel o st).2.trace = st.trace ++ (pre ++ ev :: post))
    (hfail : ev.failure? env = some e) :
    post = [] ∧ registrations post = [] ∧
    (handlebars env fuel o st).2.thrown? = some e ∧ Clean env pre := by
  have h := handlebars_failStop env fuel o st
  cases hr : (handlebars env fuel o st).2 with
  | outOfFuel =>
    rw [hr] at htrace
    have hl := congrArg List.length htrace
    simp [Res.trace] at hl
    omega
  | done st1 =>
    rw [hr] at h htrace
    obtain ⟨d, hd, hc⟩ := h
    have hdd : d = pre ++ ev :: post := by
      have : st.trace ++ d = st.trace ++ (pre ++ ev :: post) := by
        rw [← hd]; exact htrace
      exact List.append_cancel_left this
    have hmem : ev ∈ d := by rw [hdd]; simp
    have := hc ev hmem
    rw [hfail] at this
    cases this
  | threw e1 st1 =>
    rw [hr] at h htrace
    obtain ⟨d, hd, hc⟩ := h
    have hdd : d = pre ++ ev :: post := by
      have : st.trace ++ d = st.trace ++ (pre ++ ev :: post) := by
        rw [← hd]; exact htrace
      exact List.append_cancel_left this
    obtain ⟨hpost, he, hclean⟩ := failed_event_is_last env e d pre post ev hdd hfail e1 hc
    subst hpost
    subst he
    exact ⟨rfl, rfl, rfl, hclean⟩

theorem C15_witness :
    (handlebars unreadableEnv 20 scenarioOptions St.init).2.trace
      = St.init.trace ++
        ([ Event.getDirPathsRecursivelyByNameSync (.str "templates") (.arr [.str "partials"]),
           Event.readdirSync (.str "templates/partials"),
           Event.statSync "templates/partials/header.hbs" ]
          ++ Event.readFileSync "templates/partials/header.hbs" :: []) ∧
    (Event.readFileSync "templates/partials/header.hbs").failure? unreadableEnv
      = some (.ioError "EACCES") ∧
    ([] : List Event) = [] ∧ registrations [] = [] ∧
    (handlebars unreadableEnv 20 scenarioOptions St.init).2.thrown?
      = some (.ioError "EACCES") ∧
    Clean unreadableEnv
      [ Event.getDirPathsRecursivelyByNameSync (.str "templates") (.arr [.str "partials"]),
        Event.readdirSync (.str "templates/partials"),
        Event.statSync "templates/partials/header.hbs" ] :=
  ⟨by decide, by decide,
    C15_first_filesystem_failure_ends_the_call unreadableEnv 20 scenarioOptions St.init
      [ Event.getDirPathsRecursivelyByNameSync (.str "templates") (.arr [.str "partials"]),
        Event.readdirSync (.str "templates/partials"),
        Event.statSync "templates/partials/header.hbs" ]
      [] (Event.readFileSync "templates/partials/header.hbs") (.ioError "EACCES")
      (by decide) (by decide)⟩

/-! ## Independence from the state a call starts in -/

theorem fileBody_sim (env : Env) (engine : JsVal) (root cur : Prim) (exts delim : JsVal)
    (i : Nat) (p p' : List Event) (st st' : St)
    (hfiles : st.files = st'.files) (hs : St.Sim p p' st st') :
    Res.SimFiles p p' (fileBody env engine root cur exts delim i st)
      (fileBody env engine root cur exts delim i st') := by
  obtain ⟨d, h1, h2⟩ := hs
  unfold fileBody callRegisterPartial
  rw [← hfiles]
  cases st.files[i]? with
  | none =>
    simp only [Res.SimFiles, St.Sim, h1, h2]
    exact ⟨trivial, _, rfl, rfl⟩
  | some name =>
    simp only
    cases env.join cur name with
    | error e =>
      simp only [Res.SimFiles, St.Sim, h1, h2]
      exact ⟨trivial, _, rfl, rfl⟩
    | ok fullPath =>
      simp only
      cases env.statSync fullPath with
      | error e =>
        simp only [Res.SimFiles, St.Sim, St.emit, h1, h2, List.append_assoc]
        exact ⟨trivial, _, rfl, rfl⟩
      | ok s =>
        simp only
        by_cases hf : s.isFile = true
        · simp only [hf, if_true]
          by_cases ha : (indexOf exts (.str (walkerExtension env fullPath)) != -1) = true
          · simp only [ha, if_true]
            cases env.readFileSync fullPath with
            | error e =>
              simp only [Res.SimFiles, St.Sim, St.emit, h1, h2, List.append_assoc]
              exact ⟨trivial, _, rfl, rfl⟩
            | ok template =>
              simp only
              cases engine with
              | arr xs =>
                simp only [Res.SimFiles, St.Sim, St.emit, h1, h2, List.append_assoc]
                exact ⟨trivial, _, rfl, rfl⟩
              | prim q =>
                cases q <;>
                  simp only [Res.SimFiles, St.Sim, St.emit, h1, h2, List.append_assoc] <;>
                  first
                    | exact ⟨trivial, _, rfl, rfl⟩
                    | exact ⟨⟨_, rfl, rfl⟩, hfiles⟩
          · simp only [ha, if_false, Res.SimFiles, St.Sim, St.emit, h1, h2,
              List.append_assoc]
            exact ⟨⟨_, rfl, rfl⟩, hfiles⟩
        · simp only [hf, if_false, Res.SimFiles, St.Sim, St.emit, h1, h2, List.append_assoc]
          exact ⟨⟨_, rfl, rfl⟩, hfiles⟩

theorem sim_emit (p p' : List Event) (st st' : St) (ev : Event)
    (h : St.Sim p p' st st') : St.Sim p p' (st.emit ev) (st'.emit ev) := by
  obtain ⟨d, h1, h2⟩ := h
  exact ⟨d ++ [ev], by simp [St.emit, h1], by simp [St.emit, h2]⟩

theorem fileLoop_sim (env : Env) (engine : JsVal) (root cur : Prim) (exts delim : JsVal)
    (p p' : List Event) :
    ∀ (fuel i : Nat) (st st' : St), st.files = st'.files → St.Sim p p' st st' →
      Res.Sim p p' (fileLoop env engine root cur exts delim fuel i st)
        (fileLoop env engine root cur exts delim fuel i st') := by
  intro fuel
  induction fuel with
  | zero => intro i st st' _ _; trivial
  | succ f ih =>
    intro i st st' hfiles hs
    have hb := fileBody_sim env engine root cur exts delim i p p' st st' hfiles hs
    rw [fileLoop, fileLoop, ← hfiles]
    by_cases hlt : i < st.files.length
    · simp only [hlt, if_true]
      cases hr : fileBody env engine root cur exts delim i st <;>
        cases hr' : fileBody env engine root cur exts delim i st' <;>
        rw [hr, hr'] at hb <;> simp only [Res.SimFiles] at hb
      · trivial
      · exact hb
      · exact ih _ _ _ hb.2 hb.1
    · simp only [hlt, if_false]
      exact hs

theorem forEachDone_sim {α : Type} (p p' : List Event) (f : α → St → Res)
    (hf : ∀ x st st', St.Sim p p' st st' → Res.Sim p p' (f x st) (f x st')) :
    ∀ (xs : List α) (st st' : St), St.Sim p p' st st' →
      Res.Sim p p' (forEachDone f xs st) (forEachDone f xs st') := by
  intro xs
  induction xs with
  | nil => intro st st' hs; exact hs
  | cons x xs ih =>
    intro st st' hs
    have hx := hf x st st' hs
    rw [forEachDone, forEachDone]
    cases hr : f x st <;> cases hr' : f x st' <;> rw [hr, hr'] at hx <;>
      simp only [Res.Sim] at hx
    · trivial
    · exact hx
    · exact ih _ _ hx

theorem loadPartials_sim (env : Env) (engine : JsVal) (root : Prim) (exts delim : JsVal)
    (p p' : List Event) :
    ∀ (fuel : Nat) (cur : Prim) (st st' : St), St.Sim p p' st st' →
      Res.Sim p p' (loadPartials env fuel engine root cur exts delim st)
        (loadPartials env fuel engine root cur exts delim st') := by
  intro fuel
  induction fuel with
  | zero => intro cur st st' _; trivial
  | succ f ih =>
    intro cur st st' hs
    have h0 := sim_emit p p' st st' (.readdirSync cur) hs
    rw [loadPartials, loadPartials]
    cases env.readdirSync cur with
    | error e => exact ⟨rfl, h0⟩
    | ok listing =>
      simp only
      have hloop := fileLoop_sim env engine root cur exts delim p p' f 0
        { st.emit (.readdirSync cur) with files := listing }
        { st'.emit (.readdirSync cur) with files := listing } rfl h0
      cases hr : fileLoop env engine root cur exts delim f 0
          { st.emit (.readdirSync cur) with files := listing } <;>
        cases hr' : fileLoop env engine root cur exts delim f 0
          { st'.emit (.readdirSync cur) with files := listing } <;>
        rw [hr, hr'] at hloop <;> simp only [Res.Sim] at hloop
      · trivial
      · exact hloop
      · rename_i s1 s1'
        have h1 := sim_emit p p' s1 s1' (.getDirPathsSync cur) hloop
        simp only
        cases env.getDirPathsSync cur with
        | error e => exact ⟨rfl, h1⟩
        | ok subs =>
          simp only
          exact forEachDone_sim p p' _ (fun sub s s' h => ih (.str sub) s s' h) subs _ _ h1

theorem innerLoop_sim (env : Env) (o : Options) (root : Prim) (found : List Prim)
    (p p' : List Event) :
    ∀ (fuel i : Nat) (st st' : St), St.Sim p p' st st' →
      (innerLoop env o root found fuel i st).1 = (innerLoop env o root found fuel i st').1 ∧
      Res.Sim p p' (innerLoop env o root found fuel i st).2
        (innerLoop env o root found fuel i st').2 := by
  intro fuel
  induction fuel with
  | zero => intro i st st' _; exact ⟨rfl, trivial⟩
  | succ f ih =>
    intro i st st' hs
    have hw := loadPartials_sim env o.template_engine_reference root o.template_extensions
      o.delimiter_symbol p p' f (found.getD i .undefined) st st' hs
    rw [innerLoop, innerLoop]
    by_cases hlt : i < found.length
    · simp only [hlt, if_true]
      cases hr : loadPartials env f o.template_engine_reference root
          (found.getD i .undefined) o.template_extensions o.delimiter_symbol st <;>
        cases hr' : loadPartials env f o.template_engine_reference root
          (found.getD i .undefined) o.template_extensions o.delimiter_symbol st' <;>
        rw [hr, hr'] at hw <;> simp only [Res.Sim] at hw
      · exact ⟨rfl, trivial⟩
      · exact ⟨rfl, hw⟩
      · exact ih _ _ _ hw
    · simp only [hlt, if_false]
      exact ⟨by trivial, hs⟩

theorem resolveSources_sim (env : Env) (o : Options) (i : Nat) (p p' : List Event)
    (st st' : St) (hs : St.Sim p p' st st') :
    (resolveSources env o i st).2 = (resolveSources env o i st').2 ∧
    St.Sim p p' (resolveSources env o i st).1 (resolveSources env o i st').1 := by
  unfold resolveSources
  by_cases hdot : (indexOf o.partials_directory_names (.str ".") == -1) = true
  · simp only [hdot, if_true]
    have h1 := sim_emit p p' st st'
      (.getDirPathsRecursivelyByNameSync (o.template_root_directories.index i)
        o.partials_directory_names) hs
    cases env.getDirPathsRecursivelyByNameSync (o.template_root_directories.index i)
        o.partials_directory_names with
    | error e => exact ⟨rfl, h1⟩
    | ok found => exact ⟨rfl, h1⟩
  · simp only [hdot, if_false]
    exact ⟨rfl, hs⟩

theorem outerLoop_sim (env : Env) (o : Options) (p p' : List Event) :
    ∀ (fuel i : Nat) (st st' : St), St.Sim p p' st st' →
      Res.Sim p p' (outerLoop env o fuel i st) (outerLoop env o fuel i st') := by
  intro fuel
  induction fuel with
  | zero => intro i st st' _; trivial
  | succ f ih =>
    intro i st st' hs
    rw [outerLoop, outerLoop]
    cases o.template_root_directories.length with
    | error e => exact ⟨rfl, hs⟩
    | ok len =>
      simp only
      by_cases hlt : ltLength i len = true
      · simp only [hlt, if_true]
        obtain ⟨hout, hst⟩ := resolveSources_sim env o i p p' st st' hs
        rcases hrs : resolveSources env o i st with ⟨s1, out⟩
        rcases hrs' : resolveSources env o i st' with ⟨s1', out'⟩
        rw [hrs, hrs'] at hout hst
        simp only at hout hst
        subst hout
        cases out with
        | error e => exact ⟨rfl, hst⟩
        | ok found =>
          simp only
          obtain ⟨hi, hin⟩ := innerLoop_sim env o (o.template_root_directories.index i)
            found p p' f 0 s1 s1' hst
          rcases hil : innerLoop env o (o.template_root_directories.index i) found f 0 s1
            with ⟨i1, r⟩
          rcases hil' : innerLoop env o (o.template_root_directories.index i) found f 0 s1'
            with ⟨i1', r'⟩
          rw [hil, hil'] at hi hin
          simp only at hi hin
          subst hi
          cases r <;> cases r' <;> simp only [Res.Sim] at hin
          · trivial
          · exact hin
          · exact ih _ _ _ hin
      · simp only [hlt]
        exact hs

theorem normalizeField_idem (v : JsVal) : normalizeField (normalizeField v) = normalizeField v := by
  cases v with
  | arr xs => simp [normalizeField, JsVal.truthy, wrapString]
  | prim q =>
    cases q with
    | str s =>
      by_cases hs : s = ""
      · subst hs
        simp [normalizeField, JsVal.truthy, Prim.truthy]
      · simp [normalizeField, JsVal.truthy, Prim.truthy, hs, wrapString]
    | undefined => simp [normalizeField, JsVal.truthy, Prim.truthy]
    | null => simp [normalizeField, JsVal.truthy, Prim.truthy]
    | bool b => cases b <;> simp [normalizeField, JsVal.truthy, Prim.truthy, wrapString]
    | num n => by_cases hn : n = 0 <;> simp [normalizeField, JsVal.truthy, Prim.truthy, wrapString, hn]
    | obj id => simp [normalizeField, JsVal.truthy, Prim.truthy, wrapString]

theorem normalize_default_idem (o : Options) :
    defaultDelimiter (normalizeOptions (defaultDelimiter (normalizeOptions o)))
      = defaultDelimiter (normalizeOptions o) := by
  obtain ⟨e, te, r, n, x, d⟩ := o
  have hslash : (JsVal.prim (.str "/")).truthy = true := rfl
  cases hd : d.truthy
  · simp [defaultDelimiter, normalizeOptions, hd, hslash, normalizeField_idem]
  · simp [defaultDelimiter, normalizeOptions, hd, normalizeField_idem]

theorem normalizeOptions_default_fixed (o : Options) :
    normalizeOptions (defaultDelimiter (normalizeOptions o))
      = defaultDelimiter (normalizeOptions o) := by
  obtain ⟨e, te, r, n, x, d⟩ := o
  cases hd : d.truthy <;>
    simp [defaultDelimiter, normalizeOptions, hd, normalizeField_idem]

/-- C11: when a call of `exports.handlebars` completes, a second call with the
options object as the first call left it, on the same filesystem with the same
fuel, started in any state (in particular with the globals `files` and `stat` as
the first call left them, and an empty trace for a fresh engine), leaves the
options as they are, completes, and adds to its trace exactly the effects `d` the
first call added to its own, hence the same `registerPartial` calls in the same
order; validating the options again changes nothing. -/
theorem C11_second_call_repeats_the_first (env : Env) (fuel : Nat) (o : Options)
    (st st1 : St) (hfirst : (handlebars env fuel o st).2 = .done st1) :
    validateInput (handlebars env fuel o st).1 = .ok (handlebars env fuel o st).1 ∧
    defaultDelimiter (handlebars env fuel o st).1 = (handlebars env fuel o st).1 ∧
    ∀ st2 : St,
      (handlebars env fuel (handlebars env fuel o st).1 st2).1 = (handlebars env fuel o st).1 ∧
      ∃ (st3 : St) (d : List Event),
        (handlebars env fuel (handlebars env fuel o st).1 st2).2 = .done st3 ∧
        st1.trace = st.trace ++ d ∧ st3.trace = st2.trace ++ d ∧
        registrations st3.trace = registrations st2.trace ++ registrations d := by
  rw [handlebars_eq] at hfirst ⊢
  simp only at hfirst ⊢
  have hfix := normalizeOptions_default_fixed o
  have hidem := normalize_default_idem o
  refine ⟨by rw [validateInput_eq, hfix], by rw [← hfix, hidem, hfix], ?_⟩
  intro st2
  rw [handlebars_eq, hidem]
  refine ⟨rfl, ?_⟩
  have hsim := outerLoop_sim env (defaultDelimiter (normalizeOptions o)) st.trace st2.trace
    fuel 0 st st2 ⟨[], by simp, by simp⟩
  rw [hfirst] at hsim
  cases hr : outerLoop env (defaultDelimiter (normalizeOptions o)) fuel 0 st2 with
  | outOfFuel => rw [hr] at hsim; simp [Res.Sim] at hsim
  | threw e s => rw [hr] at hsim; simp [Res.Sim] at hsim
  | done st3 =>
    rw [hr] at hsim
    obtain ⟨d, h1, h2⟩ := hsim
    exact ⟨st3, d, rfl, h1, h2, by rw [h2, registrations_append]⟩

theorem C11_witness :
    (handlebars (treeEnv scenarioTree) 20 rawScenarioOptions St.init).2
      = .done (handlebars (treeEnv scenarioTree) 20 rawScenarioOptions St.init).2.finalState ∧
    registrations
        (handlebars (treeEnv scenarioTree) 20 rawScenarioOptions St.init).2.finalState.trace
      = [(1, "partials/header.hbs", "<h1>Hi</h1>")] ∧
    validateInput (handlebars (treeEnv scenarioTree) 20 rawScenarioOptions St.init).1
      = .ok (handlebars (treeEnv scenarioTree) 20 rawScenarioOptions St.init).1 ∧
    defaultDelimiter (handlebars (treeEnv scenarioTree) 20 rawScenarioOptions St.init).1
      = (handlebars (treeEnv scenarioTree) 20 rawScenarioOptions St.init).1 ∧
    ∀ st2 : St,
      (handlebars (treeEnv scenarioTree) 20
          (handlebars (treeEnv scenarioTree) 20 rawScenarioOptions St.init).1 st2).1
        = (handlebars (treeEnv scenarioTree) 20 rawScenarioOptions St.init).1 ∧
      ∃ (st3 : St) (d : List Event),
        (handlebars (treeEnv scenarioTree) 20
          (handlebars (treeEnv scenarioTree) 20 rawScenarioOptions St.init).1 st2).2
            = .done st3 ∧
        (handlebars (treeEnv scenarioTree) 20 rawScenarioOptions St.init).2.finalState.trace
          = St.init.trace ++ d ∧
        st3.trace = st2.trace ++ d ∧
        registrations st3.trace = registrations st2.trace ++ registrations d :=
  ⟨by decide, by decide,
    C11_second_call_repeats_the_first (treeEnv scenarioTree) 20 rawScenarioOptions St.init
      (handlebars (treeEnv scenarioTree) 20 rawScenarioOptions St.init).2.finalState
      (by decide)⟩

end PartialsLoader
